import Mathlib

/-!
# Spark: framed-message traffic generator (`src/Spark/spark.c`)

A shallow embedding of the functions `Alive`, `SendMsg` and `RecMsg` of
`spark.c`, and theorems about the frame layout, the reassembly loop, the
liveness check and the pacing of the sender.

Bytes are natural numbers, memory regions are lists of bytes, C integers are
`Int` with explicit wrapping where a narrower type is assigned.
-/

namespace Spark

/-! ## Machine integers -/

/-- Conversion of an integer value to `short` (16 bits, two's complement wrap). -/
def toShort (x : Int) : Int := (x + 32768) % 65536 - 32768

/-- Conversion of an integer value to `unsigned int` (32 bits). -/
def toUInt (x : Int) : Nat := (x % 4294967296).toNat

/-! ## The C library functions used by the program -/

/-- The `w` low decimal digits of `v` in ASCII, most significant digit first. -/
def decFixed : Nat → Nat → List Nat
  | 0, _ => []
  | w + 1, v => decFixed w (v / 10) ++ [48 + v % 10]

/-- Number of decimal digits of `v`, at least one; the first argument bounds the
count (20 digits cover every 64-bit value). -/
def ndigits : Nat → Nat → Nat
  | 0, _ => 1
  | f + 1, v => if v < 10 then 1 else 1 + ndigits f (v / 10)

/-- Text produced by the `printf` conversion `%0wd` (with `w = 0`: `%d`, `%ld`),
without the terminating NUL. -/
def fmtD (w : Nat) (v : Int) : List Nat :=
  if 0 ≤ v then decFixed (max w (ndigits 20 v.toNat)) v.toNat
  else 45 :: decFixed (max (w - 1) (ndigits 20 (-v).toNat)) (-v).toNat

/-- White space as skipped by `atoi`. -/
def isSpace (c : Nat) : Bool := c == 32 || (9 ≤ c && c ≤ 13)

/-- ASCII decimal digit. -/
def isDigit (c : Nat) : Bool := 48 ≤ c && c ≤ 57

/-- Digit loop of `atoi`: stops at the first byte that is not a digit. -/
def atoiDigits : Nat → List Nat → Nat
  | acc, [] => acc
  | acc, c :: cs => if isDigit c then atoiDigits (acc * 10 + (c - 48)) cs else acc

/-- C `atoi`: optional white space, optional sign, decimal digits. -/
def atoi (s : List Nat) : Int :=
  match s.dropWhile isSpace with
  | 45 :: cs => -((atoiDigits 0 cs : Nat) : Int)
  | 43 :: cs => ((atoiDigits 0 cs : Nat) : Int)
  | cs => ((atoiDigits 0 cs : Nat) : Int)

/-- Store the bytes `bs` into the region `m` from offset `off` on. The region keeps
its size: bytes that would fall past its end are outside the model. -/
def poke : List Nat → Nat → List Nat → List Nat
  | [], _, _ => []
  | x :: m, 0, [] => x :: m
  | _ :: m, 0, b :: bs => b :: poke m 0 bs
  | x :: m, off + 1, bs => x :: poke m off bs

/-- C `memset(m + off, c, n)`. -/
def memset (m : List Nat) (off c n : Nat) : List Nat :=
  poke m off (List.replicate n c)

/-- C `memcpy(m + off, src, n)`. -/
def memcpy (m : List Nat) (off : Nat) (src : List Nat) (n : Nat) : List Nat :=
  poke m off (src.take n)

/-- The C string stored at the start of `s`: the bytes before the first NUL. -/
def cstr (s : List Nat) : List Nat := s.takeWhile (fun c => c != 0)

/-- Bytes stored by `strncpy(_, src, n)`: at most `n` bytes of the string, then
NULs up to `n` bytes. -/
def strncpyBytes (src : List Nat) (n : Nat) : List Nat :=
  (cstr src).take n ++ List.replicate (n - ((cstr src).take n).length) 0

/-- C `strncpy(m + off, src, n)`. -/
def strncpy (m : List Nat) (off : Nat) (src : List Nat) (n : Nat) : List Nat :=
  poke m off (strncpyBytes src n)

/-- C `sprintf(m + off, ...)` where the formatted text is `text`: the text and a NUL. -/
def sprintfAt (m : List Nat) (off : Nat) (text : List Nat) : List Nat :=
  poke m off (text ++ [0])

/-- C `strncat(m, src, n)`: at most `n` bytes of the string `src` are appended to the
string held in `m`, followed by a NUL. -/
def strncat (m : List Nat) (src : List Nat) (n : Nat) : List Nat :=
  poke m (cstr m).length ((cstr src).take n ++ [0])

/-! ## Pacing of the sender (`SendMsg`, lines 259-281) -/

/-- The base delay `cpo` chosen by the nested conditionals on the hour `ho`. -/
def cpoOf (ho : Int) : Nat :=
  if 0 < ho ∧ ho < 9 then 1000000 / 50
  else if 8 < ho ∧ ho < 12 then 1000000 / 100
  else if 11 < ho ∧ ho < 14 then 1000000 / 300
  else if 13 < ho ∧ ho < 17 then 1000000 / 200
  else if 16 < ho ∧ ho < 20 then 1000000 / 100
  else 1000000 / 25

/-- The hour `ho` read back from the time text `hora` (`%H%M%S`): the first two
bytes are copied into the cleared `aux` and converted by `atoi`. -/
def hourOf (hora : List Nat) : Int :=
  toShort (atoi (strncpy (List.replicate 32 0) 0 hora 2))

/-- The pacing delay: `delay = cpo * nage` in `unsigned int` arithmetic. -/
def delayOf (hora : List Nat) (nage : Int) : Nat :=
  (cpoOf (hourOf hora) * toUInt nage) % 4294967296

/-- Time text of `strftime(TIME, 10, "%H%M%S", tm)` for hour `h`, minute `m`, second `s`. -/
def timeText (h m s : Nat) : List Nat :=
  decFixed 2 h ++ decFixed 2 m ++ decFixed 2 s

/-- The rate table as the specification words it: 50 sends per second for the
hours 0 to 8, 100 for 9 to 11, 300 for 12 and 13, 200 for 14 to 16, 100 for 17 to
19, 25 otherwise. -/
def specRate (h : Nat) : Nat :=
  if h ≤ 8 then 50
  else if h ≤ 11 then 100
  else if h ≤ 13 then 300
  else if h ≤ 16 then 200
  else if h ≤ 19 then 100
  else 25

/-- The rate table with hour 0 in the last row: 50 for the hours 1 to 8, 100 for
9 to 11, 300 for 12 and 13, 200 for 14 to 16, 100 for 17 to 19, 25 otherwise. -/
def amendedRate (h : Nat) : Nat :=
  if 1 ≤ h ∧ h ≤ 8 then 50
  else if 9 ≤ h ∧ h ≤ 11 then 100
  else if 12 ≤ h ∧ h ≤ 13 then 300
  else if 14 ≤ h ∧ h ≤ 16 then 200
  else if 17 ≤ h ∧ h ≤ 19 then 100
  else 25

/-! ## The sender (`SendMsg`) -/

/-- Modelled from the spec: `FAIB0000.h`, which declares `CL_COVER`, is not among the
sources. The spec lists the Cover fields in order, the message length first; the
source formats and parses it as 8 bytes. Offset of `IH_COVER.IH_MSGLEN`. -/
def offMSGLEN : Nat := 0

/-- Modelled from the spec: `FAIB0000.h` is not among the sources. The extension
length is the second Cover field, formatted and parsed as 4 bytes; with the
message length it makes the 12 bytes `RecMsg` asks of a header. Offset of
`IH_COVER.IH_EXTHDRLEN`. -/
def offEXTHDRLEN : Nat := 8

/-- The part of the `CL_COVER` declaration the program depends on: its size `capa`
and the offsets of the other fields `SendMsg` writes. The declaration is not among
the sources, so these are parameters. -/
structure CoverLayout where
  capa : Nat
  IH_MSG_TYPE : Nat
  FILLER2 : Nat
  FILLER2_size : Nat
  IH_INITTIME : Nat
  IH_WAIT : Nat
  IH_WAIT_INTERVAL : Nat
  IH_SOURCE : Nat
  IH_DEST : Nat

/-- The two length fields are members of the Cover and no other member shares their
12 bytes. -/
def CoverLayout.wf (L : CoverLayout) : Prop :=
  12 ≤ L.capa ∧ 12 ≤ L.IH_MSG_TYPE ∧ 12 ≤ L.FILLER2 ∧ 12 ≤ L.IH_INITTIME ∧ 12 ≤ L.IH_WAIT ∧
    12 ≤ L.IH_WAIT_INTERVAL ∧ 12 ≤ L.IH_SOURCE ∧ 12 ≤ L.IH_DEST

instance (L : CoverLayout) : Decidable L.wf :=
  inferInstanceAs (Decidable (12 ≤ L.capa ∧ 12 ≤ L.IH_MSG_TYPE ∧ 12 ≤ L.FILLER2 ∧
    12 ≤ L.IH_INITTIME ∧ 12 ≤ L.IH_WAIT ∧ 12 ≤ L.IH_WAIT_INTERVAL ∧ 12 ≤ L.IH_SOURCE ∧
    12 ≤ L.IH_DEST))

/-- The part of the `SD_MESSAGE` declaration the program depends on: the offsets,
counted from `FL_HEADER.FL_WORKFLOW` (where the Body starts), of the fields
`SendMsg` writes. The declaration is not among the sources. -/
structure MsgLayout where
  FL_RECORDCREATIONDATE : Nat
  FL_RECORDCREATIONTIME : Nat
  FL_RECORDCREATIONMILLISECONDS : Nat
  FL_GMTOFFSET : Nat
  FL_PAN : Nat

/-- One reading of the clock by `GetTim`: the return value and the four texts. -/
structure Clock where
  GMT : Int
  DATE : List Nat
  TIME : List Nat
  MILI : List Nat
  LCT : List Nat

/-- The C library generator: `srand` sets the state from the seed, `rand` returns a
value and the next state. -/
structure Prng (σ : Type) where
  srand : Nat → σ
  rand : σ → Nat × σ

/-- The sample generator of the C standard (`next = next * 1103515245 + 12345`,
result `(next / 65536) % 32768`). -/
def stdPrng : Prng Nat where
  srand := fun seed => seed
  rand := fun next =>
    let nx := (next * 1103515245 + 12345) % 4294967296
    ((nx / 65536) % 32768, nx)

/-- What is fixed for the lifetime of a worker: `age` is the worker number (the
argument plus one, after `age++`), `nage` the number of workers, and the globals
`ext` and `tmsg` set by `main`. -/
structure SendCfg where
  age : Int
  nage : Int
  ext : Nat
  tmsg : Nat

/-- The variables of `SendMsg` that live across iterations (`calcF` is the flag `calc`,
a reserved word here), with the memory of
`ptr_COVER` and of `ptr_SEND` (from `FL_WORKFLOW` on) and the generator state. -/
structure SendState (σ : Type) where
  n : Int
  r : Int
  calcF : Bool
  randx : Nat
  pan : List Nat
  cover : List Nat
  msg : List Nat
  rng : σ

/-- How an iteration waits: `sleep(2)` or `usleep(delay)`. -/
inductive Pause where
  | sleep (seconds : Nat)
  | usleep (micros : Nat)
  deriving DecidableEq, Repr

/-- What an iteration hands to `send` (the buffer and the count `tot`) and how it waits. -/
structure SendOut where
  buf : List Nat
  tot : Int
  pause : Pause

/-- The bytes `send(nSock, buf, tot, 0)` transmits. -/
def SendOut.frame (o : SendOut) : List Nat := o.buf.take o.tot.toNat

/-- Lines 209-229: the Cover is filled with spaces and its fields are written. -/
def stampCover (L : CoverLayout) (age : Int) (ext tmsg : Nat) (c1 : Clock) : List Nat :=
  let c := List.replicate L.capa 32
  let c := sprintfAt c offMSGLEN (fmtD 8 tmsg)
  let c := sprintfAt c offEXTHDRLEN (fmtD 4 ext)
  let c := strncpy c L.IH_MSG_TYPE [67, 82, 69] 3
  let c := memset c L.FILLER2 65 L.FILLER2_size
  let c := strncpy c L.IH_INITTIME (fmtD 0 c1.GMT) 16
  let c := strncpy c L.IH_WAIT [89] 1
  let c := strncpy c L.IH_WAIT_INTERVAL [48, 48, 48, 48, 49] 1
  let c := strncpy c L.IH_SOURCE ([83, 80, 65, 82, 75, 95] ++ fmtD 2 age) 8
  strncpy c L.IH_DEST ([69, 67, 76, 65, 71, 69, 95] ++ fmtD 2 age) 9

/-- Lines 233-236: the four time stamps are copied into the message header. -/
def stampMsg (M : MsgLayout) (msg : List Nat) (c2 : Clock) : List Nat :=
  let m := strncpy msg M.FL_RECORDCREATIONDATE c2.DATE 8
  let m := strncpy m M.FL_RECORDCREATIONTIME c2.TIME 6
  let m := strncpy m M.FL_RECORDCREATIONMILLISECONDS c2.MILI 3
  strncpy m M.FL_GMTOFFSET c2.LCT 3

/-- Lines 201-202: `pan` receives the worker number as `%02d`, then at most 17 bytes
of the string that starts at `FL_PAN[2]` in the template. -/
def initPan (M : MsgLayout) (age : Int) (pan0 msg : List Nat) : List Nat :=
  strncat (sprintfAt pan0 0 (fmtD 2 age)) (msg.drop (M.FL_PAN + 2)) 17

/-- The state before the first iteration: `r = 0`, `n = 0`, `calc = true`; `randx`
and the generator state have whatever value they had. The Cover memory is left
empty here: every iteration rewrites it in full before using it. -/
def SendMsgInit {σ : Type} (M : MsgLayout) (cfg : SendCfg) (pan0 msg0 : List Nat)
    (randx0 : Nat) (rng0 : σ) : SendState σ :=
  { n := 0, r := 0, calcF := true, randx := randx0,
    pan := initPan M cfg.age pan0 msg0, cover := [], msg := msg0, rng := rng0 }

/-- One pass through the body of `loop:` (lines 208-303), with the two clock readings
`c1` and `c2` of that pass. -/
def SendMsgIter {σ : Type} (P : Prng σ) (L : CoverLayout) (M : MsgLayout) (cfg : SendCfg)
    (c1 c2 : Clock) (st : SendState σ) : SendState σ × SendOut :=
  let buf := List.replicate 2048 0
  let cover := stampCover L cfg.age cfg.ext cfg.tmsg c1
  let msg := stampMsg M st.msg c2
  let pan := sprintfAt st.pan 15 (fmtD 4 st.n)
  let msg := strncpy msg M.FL_PAN pan 19
  let buf := memcpy buf 0 cover L.capa
  let buf := memset buf L.capa 35 cfg.ext
  let buf := memcpy buf (L.capa + cfg.ext) msg cfg.tmsg
  let tot := toShort ((L.capa : Int) + cfg.ext + cfg.tmsg)
  let delay := delayOf c2.TIME cfg.nage
  let rolled : Nat × σ :=
    if st.calcF then
      let v := P.rand (P.srand (toUInt cfg.age))
      (v.1 % 9999, v.2)
    else (st.randx, st.rng)
  let hit : Bool := decide (toUInt st.r = rolled.1)
  let r := if hit then 0 else st.r
  let n := toShort (st.n + 1)
  ({ n := if n > 9999 then 0 else n
     r := toShort (r + 1)
     calcF := hit
     randx := rolled.1
     pan := pan
     cover := cover
     msg := msg
     rng := rolled.2 },
   { buf := buf
     tot := tot
     pause := if hit then Pause.sleep 2 else Pause.usleep delay })

/-- The state at the start of iteration `k` when the worker loops (`yes == false`);
with `yes == true` only iteration 0 is performed. `clock k` gives the two clock
readings of iteration `k`. -/
def SendMsgState {σ : Type} (P : Prng σ) (L : CoverLayout) (M : MsgLayout) (cfg : SendCfg)
    (clock : Nat → Clock × Clock) (st0 : SendState σ) : Nat → SendState σ
  | 0 => st0
  | k + 1 =>
    (SendMsgIter P L M cfg (clock k).1 (clock k).2 (SendMsgState P L M cfg clock st0 k)).1

/-- What iteration `k` sends and how it waits. -/
def SendMsgOut {σ : Type} (P : Prng σ) (L : CoverLayout) (M : MsgLayout) (cfg : SendCfg)
    (clock : Nat → Clock × Clock) (st0 : SendState σ) (k : Nat) : SendOut :=
  (SendMsgIter P L M cfg (clock k).1 (clock k).2 (SendMsgState P L M cfg clock st0 k)).2

/-- The identification field `FL_PAN` (19 bytes) of a message memory. -/
def fieldPAN (M : MsgLayout) (msg : List Nat) : List Nat := (msg.drop M.FL_PAN).take 19

/-! ## The connection as the receiver sees it -/

/-- What arrives on the connection, in order: a chunk of bytes that become
available together, an error condition that the next call reports, or the close
of the peer, after which every input call returns 0. -/
inductive Delivery where
  | data (bs : List Nat)
  | fail
  | closed
  deriving DecidableEq, Repr

/-- One return of `poll`: its return value and the event bits it stored in `revents`. -/
structure PollOutcome where
  err : Int
  revents : Nat
  deriving DecidableEq, Repr

/-- Event bit of `poll.h`: there is data to read. -/
def POLLIN : Nat := 1

/-- Event bit of `poll.h`: error condition. -/
def POLLERR : Nat := 8

/-- Event bit of `poll.h`: the peer closed the connection or shut down writing. -/
def POLLRDHUP : Nat := 8192

/-- Flag of `recv`: return the data without removing it from the queue. -/
def MSG_PEEK : Nat := 2

/-- Flag of `recv`: do not block. -/
def MSG_DONTWAIT : Nat := 64

/-- Result of an input call: the return value, the bytes stored and what is left
to arrive on the connection. -/
structure IoRes where
  ret : Int
  bytes : List Nat
  rest : List Delivery
  deriving DecidableEq, Repr

/-- Calls `recv(fd, _, n, flags)`; `read(fd, _, n)` is the same call with no flag. At most
`n` bytes of the chunk at hand are returned, and they stay queued under
`MSG_PEEK`; a pending error is reported as -1 once; once the peer has closed the
call returns 0; with nothing at hand the call fails at once under `MSG_DONTWAIT`
and otherwise does not return (`none`). -/
def recv (inb : List Delivery) (n : Nat) (flags : Nat) : Option IoRes :=
  match inb with
  | [] => if flags &&& MSG_DONTWAIT ≠ 0 then some ⟨-1, [], []⟩ else none
  | Delivery.fail :: rest => some ⟨-1, [], rest⟩
  | Delivery.closed :: rest => some ⟨0, [], Delivery.closed :: rest⟩
  | Delivery.data bs :: rest =>
    if flags &&& MSG_PEEK ≠ 0 then some ⟨(min n bs.length : Nat), bs.take n, inb⟩
    else if bs.drop n = [] then some ⟨(min n bs.length : Nat), bs.take n, rest⟩
    else some ⟨(min n bs.length : Nat), bs.take n, Delivery.data (bs.drop n) :: rest⟩

/-- Call `read(fd, _, n)`. -/
def read (inb : List Delivery) (n : Nat) : Option IoRes := recv inb n 0

/-! ## The liveness check (`Alive`) -/

/-- What a call of `Alive` leaves: its return value, the outcomes `poll` has not yet
given, and the connection. -/
structure AliveRes where
  ret : Int
  polls : List PollOutcome
  inb : List Delivery
  deriving DecidableEq, Repr

/-- How a call of `Alive` ends: it returns; or `poll` never returns (`blocked`); or the
peek stored more bytes than the 1024 of the local `buf` (`overrun`), after which
the behaviour of the program is undefined. -/
inductive AliveOut where
  | returned (r : AliveRes)
  | blocked
  | overrun
  deriving DecidableEq, Repr

/-- The loop `while (pfd.revents == 0)` of `Alive`, with the current `revents` and
`tam`. `polls` lists what the successive calls of `poll` return; when it is
exhausted `poll` does not return. The peek asks for `capa` bytes and stores them
in `char buf[1024]`. -/
def AliveLoop (capa : Nat) : List PollOutcome → Nat → Int → List Delivery → AliveOut
  | [], revents, tam, inb =>
    if revents ≠ 0 then AliveOut.returned ⟨tam, [], inb⟩ else AliveOut.blocked
  | p :: ps, revents, tam, inb =>
    if revents ≠ 0 then AliveOut.returned ⟨tam, p :: ps, inb⟩
    else if toShort p.err < 0 then AliveOut.returned ⟨toShort p.err, ps, inb⟩
    else if p.revents &&& POLLIN ≠ 0 then
      match recv inb capa (MSG_PEEK ||| MSG_DONTWAIT) with
      | none => AliveOut.blocked
      | some io =>
        if 1024 < io.bytes.length then AliveOut.overrun
        else AliveLoop capa ps p.revents (toShort io.ret) io.rest
    else AliveLoop capa ps 65 (-1) inb

/-- Function `Alive(xFD)`: `revents` and `tam` start at 0. -/
def Alive (capa : Nat) (polls : List PollOutcome) (inb : List Delivery) : AliveOut :=
  AliveLoop capa polls 0 0 inb

/-! ## The receiver (`RecMsg`) -/

/-- What the receiver does that can be observed. -/
inductive RecEv where
  | alive (len : Int)
  | read (count : Int) (ret : Int)
  | shortHeader (tam : Int)
  | readError
  | frame (lido : Int) (buf : List Nat)
  | print (lido : Int)
  | close
  deriving DecidableEq, Repr

/-- How a piece of the receiver ends: it went through (`ok`), a call never returned
(`blocked`), the process left through `exit(0)` (`exited`), `Alive` overran its
buffer (`overrun`), or the bound on the number of passes was reached
(`unfinished`). -/
inductive Status where
  | ok
  | blocked
  | exited
  | overrun
  | unfinished
  deriving DecidableEq, Repr

/-- Bytes read are stored at `buf + i`. -/
def readInto (buf : List Nat) (i : Int) (bytes : List Nat) : List Nat :=
  if 0 ≤ i then poke buf i.toNat bytes else buf

/-- A length field as `RecMsg` reads it: `aux` is cleared, `w` bytes of the field are
copied into it by `strncpy`, and `atoi` converts them. -/
def parseLen (cover : List Nat) (off w : Nat) : Int :=
  atoi (strncpy (List.replicate 32 0) 0 (cover.drop off) w)

/-- Lines 365-373 of `RecMsg`: the globals `tmsg` and `ext` are read from the two
length fields of `ptr_COVER`, and `tot = capa + ext + tmsg` is stored in a `short`.
The result is `(tmsg, ext, tot)`. -/
def RecMsgHeader (capa : Nat) (cover : List Nat) : Int × Int × Int :=
  let tmsg := parseLen cover offMSGLEN 8
  let ext := parseLen cover offEXTHDRLEN 4
  (tmsg, ext, toShort ((capa : Int) + ext + tmsg))

/-- The variables of the remainder loop. -/
structure LoopSt where
  lido : Int
  i : Int
  Len : Int
  buf : List Nat
  inb : List Delivery
  deriving DecidableEq, Repr

/-- The loop `while (lido < tot)` of `RecMsg` (lines 383-394); the first argument
bounds the number of passes. -/
def remLoop (tot : Int) : Nat → LoopSt → List RecEv × LoopSt × Status
  | 0, st => if st.lido < tot then ([], st, Status.unfinished) else ([], st, Status.ok)
  | fuel + 1, st =>
    if st.lido < tot then
      match read st.inb st.Len.toNat with
      | none => ([], st, Status.blocked)
      | some io =>
        let tam := toShort io.ret
        let lido := toShort (st.lido + tam)
        let next := remLoop tot fuel
          { lido := lido, i := st.i + tam, Len := tot - lido,
            buf := readInto st.buf st.i io.bytes, inb := io.rest }
        (RecEv.read st.Len io.ret :: (if tam < 0 then [RecEv.readError] else []) ++ next.1,
          next.2)
    else ([], st, Status.ok)

/-- What one pass of the receiver over a frame leaves. `frame` is `(lido, buf)` when
the remainder loop was left. -/
structure FrameRes where
  events : List RecEv
  status : Status
  frame : Option (Int × List Nat)
  cover : List Nat
  inb : List Delivery
  deriving DecidableEq, Repr

/-- The branch `Len > 0` of `RecMsg` (lines 356-401): the header read, the two length
fields, and the remainder loop. `cover` is the memory of `ptr_COVER`. -/
def RecMsgFrame (capa : Nat) (yes : Bool) (cover : List Nat) (inb : List Delivery)
    (fuel : Nat) : FrameRes :=
  let buf := List.replicate 2048 0
  match read inb capa with
  | none => ⟨[], Status.blocked, none, cover, inb⟩
  | some io =>
    let tam := toShort io.ret
    let buf := readInto buf 0 io.bytes
    if tam < 12 then
      ⟨[RecEv.read capa io.ret, RecEv.shortHeader tam], Status.ok, none, cover, io.rest⟩
    else
      let cover := strncpy cover 0 buf tam.toNat
      let tot := (RecMsgHeader capa cover).2.2
      let Len := tot - tam
      let lido := if Len = 0 then tot else tam
      let run := remLoop tot fuel { lido := lido, i := lido, Len := Len, buf := buf, inb := io.rest }
      let st := run.2.1
      if run.2.2 = Status.ok then
        ⟨RecEv.read capa io.ret :: run.1 ++ RecEv.frame st.lido st.buf ::
            (if yes then [RecEv.print st.lido] else []),
          Status.ok, some (st.lido, st.buf), cover, st.inb⟩
      else ⟨RecEv.read capa io.ret :: run.1, run.2.2, none, cover, st.inb⟩

/-- What a run of the receiver leaves. -/
structure RecRun where
  events : List RecEv
  status : Status
  deriving DecidableEq, Repr

/-- The loop `while (loop == true)` of `RecMsg` (lines 351-410); the first argument
bounds the number of passes. -/
def RecMsgLoop (capa : Nat) (yes : Bool) :
    Nat → List Nat → List PollOutcome → List Delivery → RecRun
  | 0, _, _, _ => ⟨[], Status.unfinished⟩
  | fuel + 1, cover, polls, inb =>
    match Alive capa polls inb with
    | AliveOut.blocked => ⟨[], Status.blocked⟩
    | AliveOut.overrun => ⟨[], Status.overrun⟩
    | AliveOut.returned a =>
      if a.ret > 0 then
        let fr := RecMsgFrame capa yes cover a.inb fuel
        if fr.status = Status.ok then
          let next := RecMsgLoop capa yes fuel fr.cover a.polls fr.inb
          ⟨RecEv.alive a.ret :: fr.events ++ next.events, next.status⟩
        else ⟨RecEv.alive a.ret :: fr.events, fr.status⟩
      else ⟨[RecEv.alive a.ret, RecEv.close], Status.exited⟩

/-- The frames a run completed: `(lido, the first lido bytes of buf)`. -/
def framesOf : List RecEv → List (Int × List Nat)
  | [] => []
  | RecEv.frame lido buf :: evs => (lido, buf.take lido.toNat) :: framesOf evs
  | _ :: evs => framesOf evs

/-! ## Theorems -/

/-! ### Memory and text lemmas -/

theorem poke_length (m : List Nat) (off : Nat) (bs : List Nat) :
    (poke m off bs).length = m.length := by
  induction m generalizing off bs with
  | nil => simp [poke]
  | cons x m ih =>
    cases off with
    | zero =>
      cases bs with
      | nil => simp [poke]
      | cons b bs => simp [poke, ih]
    | succ off => simp [poke, ih]

theorem poke_nil (m : List Nat) (off : Nat) : poke m off [] = m := by
  induction m generalizing off with
  | nil => simp [poke]
  | cons x m ih =>
    cases off with
    | zero => simp [poke]
    | succ off => simp [poke, ih]

theorem poke_take_le (m : List Nat) (off : Nat) (bs : List Nat) (n : Nat) (h : n ≤ off) :
    (poke m off bs).take n = m.take n := by
  induction m generalizing off n with
  | nil => simp [poke]
  | cons x m ih =>
    cases n with
    | zero => simp
    | succ n =>
      obtain ⟨off1, rfl⟩ : ∃ off1, off = off1 + 1 := ⟨off - 1, by omega⟩
      simp [poke, ih off1 n (by omega)]

theorem poke_take_add (m : List Nat) (off : Nat) (bs : List Nat) (k : Nat)
    (h1 : off + k ≤ m.length) (h2 : k ≤ bs.length) :
    (poke m off bs).take (off + k) = m.take off ++ bs.take k := by
  induction m generalizing off bs k with
  | nil =>
    simp at h1
    obtain ⟨rfl, rfl⟩ := h1
    simp [poke]
  | cons x m ih =>
    cases off with
    | zero =>
      cases k with
      | zero => simp
      | succ k =>
        cases bs with
        | nil => simp at h2
        | cons b bs =>
          have := ih 0 bs k (by simp at h1 ⊢; omega) (by simp at h2; omega)
          simp only [Nat.zero_add, List.take_zero, List.nil_append] at this
          simp [poke, this]
    | succ off =>
      have := ih off bs k (by simp at h1; omega) h2
      rw [show off + 1 + k = (off + k) + 1 by omega]
      simp [poke, this]

theorem poke_read (m : List Nat) (off : Nat) (bs : List Nat)
    (h : off + bs.length ≤ m.length) :
    ((poke m off bs).drop off).take bs.length = bs := by
  have h1 := poke_take_add m off bs bs.length h (le_refl _)
  rw [List.take_of_length_le (l := bs) (le_refl _)] at h1
  have hl : (m.take off).length = off := by simp; omega
  have h2 : ((poke m off bs).drop off).take bs.length
      = ((poke m off bs).take (off + bs.length)).drop off := by
    rw [List.drop_take]
    congr 1
    omega
  rw [h2, h1, List.drop_append_of_le_length (by omega), List.drop_of_length_le (by omega)]
  simp

theorem decFixed_length (w v : Nat) : (decFixed w v).length = w := by
  induction w generalizing v with
  | zero => rfl
  | succ w ih => simp [decFixed, ih]

theorem decFixed_digit (w v c : Nat) (h : c ∈ decFixed w v) : 48 ≤ c ∧ c ≤ 57 := by
  induction w generalizing v with
  | zero => simp [decFixed] at h
  | succ w ih =>
    simp only [decFixed, List.mem_append, List.mem_singleton] at h
    rcases h with h | h
    · exact ih _ h
    · omega

theorem atoiDigits_decFixed (w v acc : Nat) (rest : List Nat) :
    atoiDigits acc (decFixed w v ++ rest) = atoiDigits (acc * 10 ^ w + v % 10 ^ w) rest := by
  induction w generalizing v rest with
  | zero => simp [decFixed, Nat.mod_one]
  | succ w ih =>
    simp only [decFixed, List.append_assoc, List.singleton_append]
    rw [ih]
    have hd : isDigit (48 + v % 10) = true := by
      simp [isDigit]
      omega
    simp only [atoiDigits, hd, if_true]
    congr 1
    have e1 : 48 + v % 10 - 48 = v % 10 := by omega
    rw [e1, pow_succ]
    have e2 : v % (10 ^ w * 10) = (v / 10 % 10 ^ w) * 10 + v % 10 := by
      rw [Nat.mul_comm (10 ^ w) 10, Nat.mod_mul]
      ring
    rw [e2]
    ring

theorem ndigits_le (f v w : Nat) (hw : 1 ≤ w) (hv : v < 10 ^ w) : ndigits f v ≤ w := by
  induction f generalizing v w with
  | zero => simpa [ndigits] using hw
  | succ f ih =>
    unfold ndigits
    split_ifs with h10
    · exact hw
    · obtain ⟨w1, rfl⟩ : ∃ w1, w = w1 + 1 := ⟨w - 1, by omega⟩
      have hw1 : 1 ≤ w1 := by
        rcases Nat.eq_zero_or_pos w1 with h0 | h0
        · subst h0
          simp at hv
          omega
        · exact h0
      have hv1 : v / 10 < 10 ^ w1 := by
        rw [pow_succ] at hv
        exact Nat.div_lt_of_lt_mul (by rw [Nat.mul_comm]; exact hv)
      have := ih (v / 10) w1 hw1 hv1
      omega

theorem fmtD_of_lt (w v : Nat) (hw : 1 ≤ w) (hv : v < 10 ^ w) :
    fmtD w (v : Int) = decFixed w v := by
  unfold fmtD
  rw [if_pos (by omega)]
  simp only [Int.toNat_ofNat]
  rw [Nat.max_eq_left (ndigits_le 20 v w hw hv)]

theorem cstr_append (a b : List Nat) (h : ∀ c ∈ a, c ≠ 0) : cstr (a ++ b) = a ++ cstr b := by
  induction a with
  | nil => rfl
  | cons x xs ih =>
    have hx : x ≠ 0 := h x (by simp)
    have := ih (fun c hc => h c (by simp [hc]))
    simp only [cstr] at this ⊢
    have hb : (x != 0) = true := by simpa using hx
    simp [List.takeWhile, hb, this]

theorem cstr_nul (b : List Nat) : cstr (0 :: b) = [] := by
  simp [cstr, List.takeWhile]

theorem decFixed_ne_zero (w v : Nat) : ∀ c ∈ decFixed w v, c ≠ 0 := by
  intro c hc
  have := decFixed_digit w v c hc
  omega


theorem hourOf_timeText (h m s : Nat) (hh : h ≤ 23) : hourOf (timeText h m s) = h := by
  interval_cases h <;> simp [hourOf, timeText, decFixed, strncpy, strncpyBytes, cstr, poke, atoi,
    atoiDigits, isDigit, isSpace, toShort]

theorem delayOf_eq (h m s : Nat) (w : Int) (hh : h ≤ 23) (hw1 : 1 ≤ w) (hw2 : w ≤ 32767) :
    delayOf (timeText h m s) w = cpoOf h * w.toNat := by
  unfold delayOf
  rw [hourOf_timeText h m s hh]
  have hu : toUInt w = w.toNat := by
    unfold toUInt
    rw [Int.emod_eq_of_lt (by omega) (by omega)]
  rw [hu]
  have hc : cpoOf (h : Int) ≤ 40000 := by
    unfold cpoOf
    split_ifs <;> norm_num
  have hw : w.toNat ≤ 32767 := by omega
  have : cpoOf (h : Int) * w.toNat ≤ 40000 * 32767 := Nat.mul_le_mul hc hw
  exact Nat.mod_eq_of_lt (by omega)

/-- C6, as stated, fails at hour 0: with one worker the delay computed at 00:00:00 is
40000 microseconds, not 1000000 / 50 = 20000. -/
theorem delay_hour0_not_rate50 :
    delayOf (timeText 0 0 0) 1 = 40000 ∧
      delayOf (timeText 0 0 0) 1 ≠ (1000000 / specRate 0) * 1 := by
  decide

/-- C6, amended: for every hour h in 0..23 and every worker count w in 1..32767 the
pacing delay is (1000000 / rate h) * w microseconds, where rate is 50 for the hours
1..8, 100 for 9..11, 300 for 12..13, 200 for 14..16, 100 for 17..19 and 25 for every
other hour, hour 0 included. -/
theorem delay_rate_table (h m s : Nat) (w : Int) (hh : h ≤ 23) (hw1 : 1 ≤ w)
    (hw2 : w ≤ 32767) :
    delayOf (timeText h m s) w = (1000000 / amendedRate h) * w.toNat := by
  rw [delayOf_eq h m s w hh hw1 hw2]
  congr 1
  interval_cases h <;> simp [cpoOf, amendedRate]

/-- The rate table at 09:30:00 with four workers. -/
theorem delay_rate_table_witness :
    delayOf (timeText 9 30 0) 4 = (1000000 / amendedRate 9) * (4 : Int).toNat :=
  delay_rate_table 9 30 0 4 (by decide) (by decide) (by decide)

/-- C9: for every worker count w in 1..32767 (the positive values of a short), the
delay computed at hour 12 is strictly smaller than the delay computed at hour 0,
in 32-bit unsigned arithmetic. -/
theorem delay_hour12_lt_hour0 (w : Int) (m s m0 s0 : Nat) (hw1 : 1 ≤ w) (hw2 : w ≤ 32767) :
    delayOf (timeText 12 m s) w < delayOf (timeText 0 m0 s0) w := by
  rw [delayOf_eq 12 m s w (by decide) hw1 hw2, delayOf_eq 0 m0 s0 w (by decide) hw1 hw2]
  have h1 : cpoOf ((12 : Nat) : Int) = 3333 := by decide
  have h2 : cpoOf ((0 : Nat) : Int) = 40000 := by decide
  rw [h1, h2]
  have : 0 < w.toNat := by omega
  omega

/-- Hour 12 against hour 0 with three workers. -/
theorem delay_hour12_lt_hour0_witness :
    delayOf (timeText 12 0 0) 3 < delayOf (timeText 0 0 0) 3 :=
  delay_hour12_lt_hour0 3 0 0 0 0 (by decide) (by decide)

/-! ### The two length fields -/

theorem poke_zero_replicate (n c : Nat) (d : List Nat) (h : d.length ≤ n) :
    poke (List.replicate n c) 0 d = d ++ List.replicate (n - d.length) c := by
  induction d generalizing n with
  | nil => simp [poke_nil]
  | cons b d ih =>
    obtain ⟨n1, rfl⟩ : ∃ n1, n = n1 + 1 := ⟨n - 1, by simp at h; omega⟩
    have := ih n1 (by simp at h; omega)
    simp [List.replicate_succ, poke, this]

theorem atoiDigits_replicate_zero (acc k : Nat) : atoiDigits acc (List.replicate k 0) = acc := by
  cases k with
  | zero => rfl
  | succ k => simp [List.replicate_succ, atoiDigits, isDigit]

theorem atoi_of_digit_head (c : Nat) (cs : List Nat) (h1 : 48 ≤ c) (h2 : c ≤ 57) :
    atoi (c :: cs) = ((atoiDigits 0 (c :: cs) : Nat) : Int) := by
  have hsp : isSpace c = false := by
    simp [isSpace]
    omega
  unfold atoi
  rw [List.dropWhile_cons_of_neg (by simp [hsp])]
  split
  · rename_i heq
    simp at heq
    omega
  · rename_i heq
    simp at heq
    omega
  · rfl

theorem decFixed_cons (w v : Nat) (hw : 1 ≤ w) :
    ∃ c cs, decFixed w v = c :: cs ∧ 48 ≤ c ∧ c ≤ 57 := by
  have hl := decFixed_length w v
  match hd : decFixed w v with
  | [] => rw [hd] at hl; simp at hl; omega
  | c :: cs =>
    have := decFixed_digit w v c (by rw [hd]; simp)
    exact ⟨c, cs, rfl, this.1, this.2⟩

theorem strncpyBytes_decFixed (w v : Nat) (rest : List Nat) :
    strncpyBytes (decFixed w v ++ rest) w = decFixed w v := by
  unfold strncpyBytes
  rw [cstr_append _ _ (decFixed_ne_zero w v)]
  have hl := decFixed_length w v
  rw [List.take_append_of_le_length (by omega), List.take_of_length_le (by omega)]
  simp [hl]

theorem parseLen_decFixed (cover rest : List Nat) (off w v : Nat) (hw1 : 1 ≤ w) (hw2 : w ≤ 32)
    (h : cover.drop off = decFixed w v ++ rest) :
    parseLen cover off w = ((v % 10 ^ w : Nat) : Int) := by
  unfold parseLen strncpy
  rw [h, strncpyBytes_decFixed, poke_zero_replicate _ _ _ (by rw [decFixed_length]; exact hw2)]
  obtain ⟨c, cs, hcs, hc1, hc2⟩ := decFixed_cons w v hw1
  have e1 : decFixed w v ++ List.replicate (32 - (decFixed w v).length) 0
      = c :: (cs ++ List.replicate (32 - (decFixed w v).length) 0) := by
    rw [hcs]; rfl
  rw [e1, atoi_of_digit_head c _ hc1 hc2, ← e1, atoiDigits_decFixed,
    atoiDigits_replicate_zero]
  simp

theorem stampCover_take12 (L : CoverLayout) (age : Int) (ext tmsg : Nat) (c1 : Clock)
    (hwf : L.wf) (he : ext ≤ 9999) (hb : tmsg ≤ 99999999) :
    (stampCover L age ext tmsg c1).take 12 = decFixed 8 tmsg ++ decFixed 4 ext := by
  obtain ⟨h0, h1, h2, h3, h4, h5, h6, h7⟩ := hwf
  unfold stampCover
  simp only [strncpy, memset]
  rw [poke_take_le _ _ _ _ h7, poke_take_le _ _ _ _ h6, poke_take_le _ _ _ _ h5,
    poke_take_le _ _ _ _ h4, poke_take_le _ _ _ _ h3, poke_take_le _ _ _ _ h2,
    poke_take_le _ _ _ _ h1]
  rw [fmtD_of_lt 8 tmsg (by decide) (by omega), fmtD_of_lt 4 ext (by decide) (by omega)]
  unfold sprintfAt offMSGLEN offEXTHDRLEN
  have hA : (poke (List.replicate L.capa 32) 0 (decFixed 8 tmsg ++ [0])).take 8
      = decFixed 8 tmsg := by
    have := poke_take_add (List.replicate L.capa 32) 0 (decFixed 8 tmsg ++ [0]) 8
      (by simp; omega) (by simp [decFixed_length])
    rw [Nat.zero_add, List.take_zero, List.nil_append] at this
    rw [this, List.take_append_of_le_length (by rw [decFixed_length]),
      List.take_of_length_le (by rw [decFixed_length])]
  have hB := poke_take_add (poke (List.replicate L.capa 32) 0 (decFixed 8 tmsg ++ [0])) 8
    (decFixed 4 ext ++ [0]) 4 (by rw [poke_length]; simp; omega) (by simp [decFixed_length])
  rw [show (12 : Nat) = 8 + 4 from rfl, hB, hA,
    List.take_append_of_le_length (by rw [decFixed_length]),
    List.take_of_length_le (by rw [decFixed_length])]

theorem parse_of_take12 (cover : List Nat) (e b : Nat) (he : e ≤ 9999) (hb : b ≤ 99999999)
    (h : cover.take 12 = decFixed 8 b ++ decFixed 4 e) :
    parseLen cover offMSGLEN 8 = (b : Int) ∧ parseLen cover offEXTHDRLEN 4 = (e : Int) := by
  have hc : cover = decFixed 8 b ++ (decFixed 4 e ++ cover.drop 12) := by
    rw [← List.append_assoc, ← h, List.take_append_drop]
  constructor
  · rw [parseLen_decFixed cover (decFixed 4 e ++ cover.drop 12) offMSGLEN 8 b (by decide)
      (by decide) (by unfold offMSGLEN; rw [List.drop_zero]; exact hc)]
    rw [Nat.mod_eq_of_lt (by omega)]
  · rw [parseLen_decFixed cover (cover.drop 12) offEXTHDRLEN 4 e (by decide) (by decide)
      (by
        unfold offEXTHDRLEN
        conv_lhs => rw [hc]
        rw [List.drop_append_of_le_length (by rw [decFixed_length]),
          List.drop_of_length_le (by rw [decFixed_length])]
        rfl)]
    rw [Nat.mod_eq_of_lt (by omega)]

theorem strncpy_take12 (cover0 buf : List Nat) (tam e b : Nat) (hc : 12 ≤ cover0.length)
    (ht : 12 ≤ tam) (h : buf.take 12 = decFixed 8 b ++ decFixed 4 e) :
    (strncpy cover0 0 buf tam).take 12 = decFixed 8 b ++ decFixed 4 e := by
  have hl : (decFixed 8 b ++ decFixed 4 e).length = 12 := by simp [decFixed_length]
  have hnz : ∀ c ∈ decFixed 8 b ++ decFixed 4 e, c ≠ 0 := by
    intro c hc
    rcases List.mem_append.mp hc with h1 | h1
    · exact decFixed_ne_zero _ _ c h1
    · exact decFixed_ne_zero _ _ c h1
  have hb : buf = (decFixed 8 b ++ decFixed 4 e) ++ buf.drop 12 := by
    rw [← h, List.take_append_drop]
  have hcs : cstr buf = (decFixed 8 b ++ decFixed 4 e) ++ cstr (buf.drop 12) := by
    conv_lhs => rw [hb]
    exact cstr_append _ _ hnz
  have hX : (cstr buf).take tam
      = (decFixed 8 b ++ decFixed 4 e) ++ (cstr (buf.drop 12)).take (tam - 12) := by
    rw [hcs, List.take_append_eq_append_take, hl,
      List.take_of_length_le (by omega : (decFixed 8 b ++ decFixed 4 e).length ≤ tam)]
  have hs : (strncpyBytes buf tam).take 12 = decFixed 8 b ++ decFixed 4 e := by
    unfold strncpyBytes
    rw [hX, List.append_assoc, List.take_append_of_le_length (by omega),
      List.take_of_length_le (by omega)]
  have hlen : 12 ≤ (strncpyBytes buf tam).length := by
    have : ((strncpyBytes buf tam).take 12).length = 12 := by rw [hs, hl]
    rw [List.length_take] at this
    omega
  unfold strncpy
  have := poke_take_add cover0 0 (strncpyBytes buf tam) 12 (by omega) hlen
  rw [Nat.zero_add, List.take_zero, List.nil_append] at this
  rw [this, hs]

/-! ### The sender -/

section Sender

variable {σ : Type} (P : Prng σ) (L : CoverLayout) (M : MsgLayout) (cfg : SendCfg)
  (clock : Nat → Clock × Clock)

theorem SendMsgState_n_succ (st0 : SendState σ) (k : Nat) :
    (SendMsgState P L M cfg clock st0 (k + 1)).n =
      if toShort ((SendMsgState P L M cfg clock st0 k).n + 1) > 9999 then 0
      else toShort ((SendMsgState P L M cfg clock st0 k).n + 1) := rfl

theorem SendMsgState_n (st0 : SendState σ) (h0 : st0.n = 0) (k : Nat) :
    (SendMsgState P L M cfg clock st0 k).n = ((k % 10000 : Nat) : Int) := by
  induction k with
  | zero => simpa [SendMsgState] using h0
  | succ k ih =>
    rw [SendMsgState_n_succ, ih]
    unfold toShort
    split_ifs <;> omega

/-- C5: the sequence counter n of a worker is 0 before the first iteration; at the
start of iteration k (counting from 0) it is k mod 10000, hence in 0..9999; an
iteration takes it from 9999 to 0 and otherwise adds one; after 10000 iterations
it is 0 again. -/
theorem SendMsg_sequence_counter (pan0 msg0 : List Nat) (randx0 : Nat) (rng0 : σ) (k : Nat) :
    (SendMsgState P L M cfg clock (SendMsgInit M cfg pan0 msg0 randx0 rng0) 0).n = 0 ∧
    (SendMsgState P L M cfg clock (SendMsgInit M cfg pan0 msg0 randx0 rng0) k).n
      = ((k % 10000 : Nat) : Int) ∧
    0 ≤ (SendMsgState P L M cfg clock (SendMsgInit M cfg pan0 msg0 randx0 rng0) k).n ∧
    (SendMsgState P L M cfg clock (SendMsgInit M cfg pan0 msg0 randx0 rng0) k).n ≤ 9999 ∧
    (SendMsgState P L M cfg clock (SendMsgInit M cfg pan0 msg0 randx0 rng0) (k + 1)).n
      = (if (SendMsgState P L M cfg clock (SendMsgInit M cfg pan0 msg0 randx0 rng0) k).n = 9999
          then 0
          else (SendMsgState P L M cfg clock (SendMsgInit M cfg pan0 msg0 randx0 rng0) k).n + 1) ∧
    (SendMsgState P L M cfg clock (SendMsgInit M cfg pan0 msg0 randx0 rng0) 10000).n = 0 := by
  have h := fun j => SendMsgState_n P L M cfg clock (SendMsgInit M cfg pan0 msg0 randx0 rng0) rfl j
  refine ⟨rfl, h k, ?_, ?_, ?_, ?_⟩
  · rw [h k]; omega
  · rw [h k]; omega
  · rw [h (k + 1), h k]
    split_ifs <;> omega
  · rw [h 10000]; rfl

theorem SendMsgState_randx_succ (st0 : SendState σ) (k : Nat) :
    (SendMsgState P L M cfg clock st0 (k + 1)).randx =
      if (SendMsgState P L M cfg clock st0 k).calcF then
        (P.rand (P.srand (toUInt cfg.age))).1 % 9999
      else (SendMsgState P L M cfg clock st0 k).randx := by
  simp only [SendMsgState, SendMsgIter]
  split_ifs <;> rfl

/-- C10, what the code does: each time the threshold is rolled, the generator is first
reseeded with the same seed (the worker number), so every roll yields the same
threshold, the first value of the generator for that seed taken modulo 9999;
it lies in 0..9998, and an iteration pauses two seconds exactly when the send
counter equals it. -/
theorem SendMsg_threshold_repeats (pan0 msg0 : List Nat) (randx0 : Nat) (rng0 : σ) (k : Nat) :
    (SendMsgState P L M cfg clock (SendMsgInit M cfg pan0 msg0 randx0 rng0) (k + 1)).randx
      = (P.rand (P.srand (toUInt cfg.age))).1 % 9999 ∧
    (SendMsgState P L M cfg clock (SendMsgInit M cfg pan0 msg0 randx0 rng0) (k + 1)).randx
      ≤ 9998 ∧
    ((SendMsgOut P L M cfg clock (SendMsgInit M cfg pan0 msg0 randx0 rng0) k).pause
        = Pause.sleep 2 ↔
      toUInt (SendMsgState P L M cfg clock (SendMsgInit M cfg pan0 msg0 randx0 rng0) k).r
        = (P.rand (P.srand (toUInt cfg.age))).1 % 9999) := by
  have h : ∀ j, (SendMsgState P L M cfg clock (SendMsgInit M cfg pan0 msg0 randx0 rng0)
      (j + 1)).randx = (P.rand (P.srand (toUInt cfg.age))).1 % 9999 := by
    intro j
    induction j with
    | zero => rw [SendMsgState_randx_succ]; rfl
    | succ j ih =>
      rw [SendMsgState_randx_succ]
      split_ifs
      · rfl
      · exact ih
  refine ⟨h k, ?_, ?_⟩
  · rw [h k]
    have := Nat.mod_lt (P.rand (P.srand (toUInt cfg.age))).1 (by decide : 0 < 9999)
    omega
  · have hr : (SendMsgState P L M cfg clock (SendMsgInit M cfg pan0 msg0 randx0 rng0)
        (k + 1)).randx = (P.rand (P.srand (toUInt cfg.age))).1 % 9999 := h k
    simp only [SendMsgState, SendMsgIter] at hr
    simp only [SendMsgOut, SendMsgIter]
    rw [hr]
    by_cases hc : toUInt (SendMsgState P L M cfg clock
        (SendMsgInit M cfg pan0 msg0 randx0 rng0) k).r
        = (P.rand (P.srand (toUInt cfg.age))).1 % 9999
    · simp [hc]
    · simp [hc]

theorem stampCover_length (age : Int) (ext tmsg : Nat) (c1 : Clock) :
    (stampCover L age ext tmsg c1).length = L.capa := by
  simp [stampCover, strncpy, memset, sprintfAt, poke_length]

theorem stampMsg_length (msg : List Nat) (c2 : Clock) :
    (stampMsg M msg c2).length = msg.length := by
  simp [stampMsg, strncpy, poke_length]

theorem SendMsgState_msg_length (st0 : SendState σ) (k : Nat) :
    (SendMsgState P L M cfg clock st0 k).msg.length = st0.msg.length := by
  induction k with
  | zero => rfl
  | succ k ih =>
    simp only [SendMsgState, SendMsgIter, strncpy, poke_length, stampMsg_length]
    exact ih

theorem frame_build_gen (b0 cover msg : List Nat) (capa ext tmsg : Nat)
    (hb : b0.length = 2048) (hc : cover.length = capa)
    (hm : tmsg ≤ msg.length) (hs : capa + ext + tmsg ≤ 2048) :
    (memcpy (memset (memcpy b0 0 cover capa) capa 35 ext) (capa + ext)
        msg tmsg).take (capa + ext + tmsg)
      = cover ++ List.replicate ext 35 ++ msg.take tmsg := by
  unfold memcpy memset
  have hct : cover.take capa = cover := List.take_of_length_le (by omega)
  rw [hct]
  have h1 : (poke b0 0 cover).take capa = cover := by
    have := poke_take_add b0 0 cover capa (by omega) (by omega)
    rw [Nat.zero_add, hct] at this
    rw [this]
    simp
  have h2 : (poke (poke b0 0 cover) capa (List.replicate ext 35)).take
      (capa + ext) = cover ++ List.replicate ext 35 := by
    have := poke_take_add (poke b0 0 cover) capa (List.replicate ext 35)
      ext (by rw [poke_length]; omega) (by simp)
    rw [this, h1]
    simp
  have h3 := poke_take_add
    (poke (poke b0 0 cover) capa (List.replicate ext 35)) (capa + ext)
    (msg.take tmsg) tmsg (by rw [poke_length, poke_length]; omega) (by simp; omega)
  rw [h3, h2]
  simp

theorem frame_build (cover msg : List Nat) (capa ext tmsg : Nat) (hc : cover.length = capa)
    (hm : tmsg ≤ msg.length) (hs : capa + ext + tmsg ≤ 2048) :
    (memcpy (memset (memcpy (List.replicate 2048 0) 0 cover capa) capa 35 ext) (capa + ext)
        msg tmsg).take (capa + ext + tmsg)
      = cover ++ List.replicate ext 35 ++ msg.take tmsg :=
  frame_build_gen _ cover msg capa ext tmsg (List.length_replicate _ _) hc hm hs

theorem frame_layout_core (st0 : SendState σ) (k : Nat)
    (hsize : L.capa + cfg.ext + cfg.tmsg ≤ 2048) (hmsg : cfg.tmsg ≤ st0.msg.length) :
    (SendMsgOut P L M cfg clock st0 k).tot = ((L.capa + cfg.ext + cfg.tmsg : Nat) : Int) ∧
    (SendMsgOut P L M cfg clock st0 k).frame.length = L.capa + cfg.ext + cfg.tmsg ∧
    (SendMsgOut P L M cfg clock st0 k).frame
      = (SendMsgState P L M cfg clock st0 (k + 1)).cover ++ List.replicate cfg.ext 35
        ++ (SendMsgState P L M cfg clock st0 (k + 1)).msg.take cfg.tmsg ∧
    (SendMsgState P L M cfg clock st0 (k + 1)).cover.length = L.capa ∧
    ((SendMsgState P L M cfg clock st0 (k + 1)).msg.take cfg.tmsg).length = cfg.tmsg ∧
    (cfg.ext = 200 → cfg.tmsg = 64 →
      (SendMsgOut P L M cfg clock st0 k).frame.length = L.capa + 264) := by
  have htot : (SendMsgOut P L M cfg clock st0 k).tot
      = ((L.capa + cfg.ext + cfg.tmsg : Nat) : Int) := by
    simp only [SendMsgOut, SendMsgIter, toShort]
    push_cast
    omega
  have hcov : (SendMsgState P L M cfg clock st0 (k + 1)).cover.length = L.capa := by
    simp only [SendMsgState, SendMsgIter]
    exact stampCover_length L _ _ _ _
  have hml : cfg.tmsg ≤ (SendMsgState P L M cfg clock st0 (k + 1)).msg.length := by
    rw [SendMsgState_msg_length]; exact hmsg
  have hfr : (SendMsgOut P L M cfg clock st0 k).frame
      = (SendMsgState P L M cfg clock st0 (k + 1)).cover ++ List.replicate cfg.ext 35
        ++ (SendMsgState P L M cfg clock st0 (k + 1)).msg.take cfg.tmsg := by
    have hb := frame_build (SendMsgState P L M cfg clock st0 (k + 1)).cover
      (SendMsgState P L M cfg clock st0 (k + 1)).msg L.capa cfg.ext cfg.tmsg hcov hml hsize
    unfold SendOut.frame
    rw [htot, Int.toNat_ofNat, ← hb]
    simp only [SendMsgOut, SendMsgState, SendMsgIter]
  have hlen : (SendMsgOut P L M cfg clock st0 k).frame.length
      = L.capa + cfg.ext + cfg.tmsg := by
    rw [hfr]
    simp [hcov]
    omega
  refine ⟨htot, hlen, hfr, hcov, ?_, ?_⟩
  · simp; omega
  · intro he hb
    rw [hlen, he, hb]

/-- C2: when capa + ext + tmsg ≤ 2048, the buffer handed to send in every iteration k
holds exactly tot = capa + ext + tmsg bytes: the capa bytes of the Cover as written
in that iteration, then ext bytes all equal to 0x23, then the first tmsg bytes of
the message as stamped in that iteration; with ext = 200 and tmsg = 64 that is
capa + 264 bytes; the length does not depend on k. The last two parts name the
Cover and the message of iteration k: the Cover as `stampCover` writes it, the
message with the time stamps and the identification field of that iteration. -/
theorem SendMsg_frame_layout (st0 : SendState σ) (k : Nat)
    (hsize : L.capa + cfg.ext + cfg.tmsg ≤ 2048) (hmsg : cfg.tmsg ≤ st0.msg.length) :
    (SendMsgOut P L M cfg clock st0 k).tot = ((L.capa + cfg.ext + cfg.tmsg : Nat) : Int) ∧
    (SendMsgOut P L M cfg clock st0 k).frame.length = L.capa + cfg.ext + cfg.tmsg ∧
    (SendMsgOut P L M cfg clock st0 k).frame
      = (SendMsgState P L M cfg clock st0 (k + 1)).cover ++ List.replicate cfg.ext 35
        ++ (SendMsgState P L M cfg clock st0 (k + 1)).msg.take cfg.tmsg ∧
    (SendMsgState P L M cfg clock st0 (k + 1)).cover.length = L.capa ∧
    ((SendMsgState P L M cfg clock st0 (k + 1)).msg.take cfg.tmsg).length = cfg.tmsg ∧
    (cfg.ext = 200 → cfg.tmsg = 64 →
      (SendMsgOut P L M cfg clock st0 k).frame.length = L.capa + 264) ∧
    (SendMsgState P L M cfg clock st0 (k + 1)).cover
      = stampCover L cfg.age cfg.ext cfg.tmsg (clock k).1 ∧
    (SendMsgState P L M cfg clock st0 (k + 1)).msg
      = strncpy (stampMsg M (SendMsgState P L M cfg clock st0 k).msg (clock k).2) M.FL_PAN
          (sprintfAt (SendMsgState P L M cfg clock st0 k).pan 15
            (fmtD 4 (SendMsgState P L M cfg clock st0 k).n)) 19 := by
  obtain ⟨h1, h2, h3, h4, h5, h6⟩ := frame_layout_core P L M cfg clock st0 k hsize hmsg
  refine ⟨h1, h2, h3, h4, h5, h6, ?_, ?_⟩ <;> simp only [SendMsgState, SendMsgIter]

/-- The frame of iteration 3 for a Cover of 64 bytes, an Extension of 200 and a Body of 64. -/
theorem SendMsg_frame_layout_witness :
    (SendMsgOut stdPrng ⟨64, 12, 15, 4, 19, 35, 36, 41, 49⟩ ⟨19, 27, 33, 36, 0⟩
        ⟨1, 1, 200, 64⟩ (fun _ => (⟨0, [], [], [], []⟩, ⟨0, [], [], [], []⟩))
        (SendMsgInit ⟨19, 27, 33, 36, 0⟩ ⟨1, 1, 200, 64⟩ (List.replicate 20 0)
          (List.replicate 80 52) 0 0) 3).frame.length = 64 + 200 + 64 :=
  (SendMsg_frame_layout stdPrng ⟨64, 12, 15, 4, 19, 35, 36, 41, 49⟩ ⟨19, 27, 33, 36, 0⟩
    ⟨1, 1, 200, 64⟩ (fun _ => (⟨0, [], [], [], []⟩, ⟨0, [], [], [], []⟩))
    (SendMsgInit ⟨19, 27, 33, 36, 0⟩ ⟨1, 1, 200, 64⟩ (List.replicate 20 0)
      (List.replicate 80 52) 0 0) 3 (by decide)
    (by simp [SendMsgInit])).2.1

/-- C3, as stated, fails for lengths the `short` total cannot hold: with capa = 64, an
extension length of 9999 and a body length of 99999999, the two fields are read
back as written, but the total `RecMsg` computes is 2126, not capa + e + b. -/
theorem total_not_sum_of_lengths :
    RecMsgHeader 64
        (stampCover ⟨64, 12, 15, 4, 19, 35, 36, 41, 49⟩ 1 9999 99999999 ⟨0, [], [], [], []⟩)
      = (99999999, 9999, 2126) ∧
    (RecMsgHeader 64
        (stampCover ⟨64, 12, 15, 4, 19, 35, 36, 41, 49⟩ 1 9999 99999999
          ⟨0, [], [], [], []⟩)).2.2
      ≠ 64 + 9999 + 99999999 := by
  decide

/-- C3, amended: for every body length b in 0..99999999 and extension length e in
0..9999, the Cover written by SendMsg in any iteration is read back by the header
parsing of RecMsg as exactly (b, e), also after RecMsg has copied the received
Cover into its own `ptr_COVER`; and when capa + e + b ≤ 2048 the frame sent is the
Cover followed by e Extension bytes and b Body bytes, and the total RecMsg
computes is capa + e + b, the length of the frame sent. -/
theorem length_fields_round_trip (st0 : SendState σ) (k : Nat) (cover0 : List Nat)
    (hwf : L.wf) (he : cfg.ext ≤ 9999) (hb : cfg.tmsg ≤ 99999999)
    (hc0 : cover0.length = L.capa) :
    (RecMsgHeader L.capa (SendMsgState P L M cfg clock st0 (k + 1)).cover).1
      = (cfg.tmsg : Int) ∧
    (RecMsgHeader L.capa (SendMsgState P L M cfg clock st0 (k + 1)).cover).2.1
      = (cfg.ext : Int) ∧
    RecMsgHeader L.capa (strncpy cover0 0
        (readInto (List.replicate 2048 0) 0 (SendMsgState P L M cfg clock st0 (k + 1)).cover)
        L.capa)
      = RecMsgHeader L.capa (SendMsgState P L M cfg clock st0 (k + 1)).cover ∧
    (L.capa + cfg.ext + cfg.tmsg ≤ 2048 → cfg.tmsg ≤ st0.msg.length →
      (SendMsgOut P L M cfg clock st0 k).frame
        = (SendMsgState P L M cfg clock st0 (k + 1)).cover ++ List.replicate cfg.ext 35
          ++ (SendMsgState P L M cfg clock st0 (k + 1)).msg.take cfg.tmsg ∧
      (SendMsgState P L M cfg clock st0 (k + 1)).cover.length = L.capa ∧
      ((SendMsgState P L M cfg clock st0 (k + 1)).msg.take cfg.tmsg).length = cfg.tmsg ∧
      (RecMsgHeader L.capa (SendMsgState P L M cfg clock st0 (k + 1)).cover).2.2
        = ((L.capa + cfg.ext + cfg.tmsg : Nat) : Int) ∧
      (RecMsgHeader L.capa (SendMsgState P L M cfg clock st0 (k + 1)).cover).2.2
        = (((SendMsgOut P L M cfg clock st0 k).frame.length : Nat) : Int)) := by
  have hcov : (SendMsgState P L M cfg clock st0 (k + 1)).cover
      = stampCover L cfg.age cfg.ext cfg.tmsg (clock k).1 := by
    simp only [SendMsgState, SendMsgIter]
  have h12 := stampCover_take12 L cfg.age cfg.ext cfg.tmsg (clock k).1 hwf he hb
  have hp := parse_of_take12 _ cfg.ext cfg.tmsg he hb h12
  have hcl := stampCover_length L cfg.age cfg.ext cfg.tmsg (clock k).1
  have hr12 : (readInto (List.replicate 2048 0) 0
      (stampCover L cfg.age cfg.ext cfg.tmsg (clock k).1)).take 12
      = decFixed 8 cfg.tmsg ++ decFixed 4 cfg.ext := by
    unfold readInto
    rw [if_pos (le_refl _)]
    have := poke_take_add (List.replicate 2048 0) (0 : Int).toNat
      (stampCover L cfg.age cfg.ext cfg.tmsg (clock k).1) 12
      (by rw [List.length_replicate]; decide) (by rw [hcl]; exact hwf.1)
    rw [show (0 : Int).toNat = 0 from rfl, Nat.zero_add, List.take_zero, List.nil_append]
      at this
    rw [show (0 : Int).toNat = 0 from rfl, this, h12]
  have hs12 := strncpy_take12 cover0 _ L.capa cfg.ext cfg.tmsg (by rw [hc0]; exact hwf.1)
    hwf.1 hr12
  have hp2 := parse_of_take12 _ cfg.ext cfg.tmsg he hb hs12
  rw [hcov]
  refine ⟨?_, ?_, ?_, ?_⟩
  · simp only [RecMsgHeader]
    exact hp.1
  · simp only [RecMsgHeader]
    exact hp.2
  · simp only [RecMsgHeader, hp.1, hp.2, hp2.1, hp2.2]
  · intro hsize hmsg
    have hf := frame_layout_core P L M cfg clock st0 k hsize hmsg
    rw [hcov] at hf
    have ht : (RecMsgHeader L.capa (stampCover L cfg.age cfg.ext cfg.tmsg (clock k).1)).2.2
        = ((L.capa + cfg.ext + cfg.tmsg : Nat) : Int) := by
      simp only [RecMsgHeader, hp.1, hp.2, toShort]
      push_cast
      omega
    refine ⟨hf.2.2.1, hf.2.2.2.1, hf.2.2.2.2.1, ht, ?_⟩
    rw [ht, hf.2.1]

/-- The total read back from the Cover of the first iteration, for capa = 64, ext = 200, tmsg = 64. -/
theorem length_fields_round_trip_witness :
    (RecMsgHeader 64 (SendMsgState stdPrng ⟨64, 12, 15, 4, 19, 35, 36, 41, 49⟩
        ⟨19, 27, 33, 36, 0⟩ ⟨1, 1, 200, 64⟩ (fun _ => (⟨0, [], [], [], []⟩, ⟨0, [], [], [], []⟩))
        (SendMsgInit ⟨19, 27, 33, 36, 0⟩ ⟨1, 1, 200, 64⟩ (List.replicate 20 0)
          (List.replicate 80 52) 0 0) (0 + 1)).cover).2.2
      = ((64 + 200 + 64 : Nat) : Int) :=
  ((length_fields_round_trip stdPrng ⟨64, 12, 15, 4, 19, 35, 36, 41, 49⟩ ⟨19, 27, 33, 36, 0⟩
    ⟨1, 1, 200, 64⟩ (fun _ => (⟨0, [], [], [], []⟩, ⟨0, [], [], [], []⟩))
    (SendMsgInit ⟨19, 27, 33, 36, 0⟩ ⟨1, 1, 200, 64⟩ (List.replicate 20 0)
      (List.replicate 80 52) 0 0) 0 (List.replicate 64 0) (by decide) (by decide) (by decide)
    (by simp)).2.2.2 (by decide) (by simp [SendMsgInit])).2.2.2.1

/-! ### The identification field -/

theorem initPan_spec (age : Int) (pan0 msg0 : List Nat) (ha0 : 0 ≤ age) (ha1 : age ≤ 99)
    (hp : pan0.length = 20) (hlen : M.FL_PAN + 15 ≤ msg0.length)
    (hnz : ∀ c ∈ (msg0.drop (M.FL_PAN + 2)).take 13, c ≠ 0) :
    (initPan M age pan0 msg0).length = 20 ∧
    (initPan M age pan0 msg0).take 15
      = decFixed 2 age.toNat ++ (msg0.drop (M.FL_PAN + 2)).take 13 := by
  have hf : fmtD 2 age = decFixed 2 age.toNat := by
    have := fmtD_of_lt 2 age.toNat (by decide) (by omega)
    rwa [Int.toNat_of_nonneg ha0] at this
  have hd : (decFixed 2 age.toNat).length = 2 := decFixed_length _ _
  unfold initPan
  rw [hf]
  generalize hp1 : sprintfAt pan0 0 (decFixed 2 age.toNat) = p1
  have hl1 : p1.length = 20 := by rw [← hp1, sprintfAt, poke_length, hp]
  have h3 : p1.take 3 = decFixed 2 age.toNat ++ [0] := by
    have := poke_take_add pan0 0 (decFixed 2 age.toNat ++ [0]) 3 (by omega) (by simp [hd])
    rw [Nat.zero_add, List.take_zero, List.nil_append,
      List.take_of_length_le (l := decFixed 2 age.toNat ++ [0]) (by simp [hd])] at this
    rw [← hp1, sprintfAt, this]
  have hc1 : cstr p1 = decFixed 2 age.toNat := by
    have e : p1 = decFixed 2 age.toNat ++ (0 :: p1.drop 3) := by
      conv_lhs => rw [← List.take_append_drop 3 p1, h3]
      simp
    rw [e, cstr_append _ _ (decFixed_ne_zero _ _), cstr_nul, List.append_nil]
  have h2 : p1.take 2 = decFixed 2 age.toNat := by
    have : p1.take 2 = (p1.take 3).take 2 := by
      rw [List.take_take]
      rfl
    rw [this, h3, List.take_append_of_le_length (by omega), List.take_of_length_le (by omega)]
  generalize hsrc : msg0.drop (M.FL_PAN + 2) = src at hnz ⊢
  have hsl : (src.take 13).length = 13 := by
    rw [List.length_take, ← hsrc, List.length_drop]
    omega
  have hcs : cstr src = src.take 13 ++ cstr (src.drop 13) := by
    conv_lhs => rw [← List.take_append_drop 13 src]
    exact cstr_append _ _ hnz
  have hbs : (cstr src).take 17 ++ [0]
      = src.take 13 ++ ((cstr (src.drop 13)).take 4 ++ [0]) := by
    rw [hcs, List.take_append_eq_append_take, hsl, List.take_of_length_le (by omega),
      List.append_assoc]
  unfold strncat
  rw [hc1, hd, hbs]
  constructor
  · rw [poke_length, hl1]
  · have := poke_take_add p1 2 (src.take 13 ++ ((cstr (src.drop 13)).take 4 ++ [0])) 13
      (by omega) (by simp only [List.length_append, hsl]; omega)
    rw [show (15 : Nat) = 2 + 13 from rfl, this, h2,
      List.take_append_of_le_length (by omega), List.take_of_length_le (by omega)]

theorem pan_step (pan A : List Nat) (n : Nat) (hn : n ≤ 9999) (hl : pan.length = 20)
    (hA : pan.take 15 = A) (hnz : ∀ c ∈ A, c ≠ 0) :
    (sprintfAt pan 15 (fmtD 4 (n : Int))).length = 20 ∧
    (sprintfAt pan 15 (fmtD 4 (n : Int))).take 15 = A ∧
    strncpyBytes (sprintfAt pan 15 (fmtD 4 (n : Int))) 19 = A ++ decFixed 4 n := by
  rw [fmtD_of_lt 4 n (by decide) (by omega)]
  have hd : (decFixed 4 n).length = 4 := decFixed_length _ _
  have hAl : A.length = 15 := by rw [← hA, List.length_take]; omega
  unfold sprintfAt
  have hlen : (poke pan 15 (decFixed 4 n ++ [0])).length = 20 := by rw [poke_length, hl]
  have h15 : (poke pan 15 (decFixed 4 n ++ [0])).take 15 = A := by
    rw [poke_take_le _ _ _ _ (le_refl _), hA]
  have hall : poke pan 15 (decFixed 4 n ++ [0]) = A ++ (decFixed 4 n ++ [0]) := by
    have := poke_take_add pan 15 (decFixed 4 n ++ [0]) 5 (by omega) (by simp [hd])
    rw [List.take_of_length_le (by omega), hA,
      List.take_of_length_le (by simp [hd])] at this
    exact this
  refine ⟨hlen, h15, ?_⟩
  unfold strncpyBytes
  have hc : cstr (poke pan 15 (decFixed 4 n ++ [0])) = A ++ decFixed 4 n := by
    rw [hall, cstr_append _ _ hnz, cstr_append _ _ (decFixed_ne_zero _ _), cstr_nul,
      List.append_nil]
  rw [hc, List.take_of_length_le (by simp [hAl, hd])]
  simp [hAl, hd]

theorem SendMsgState_pan (st0 : SendState σ) (A : List Nat) (h0 : st0.n = 0)
    (hl : st0.pan.length = 20) (hA : st0.pan.take 15 = A) (hnz : ∀ c ∈ A, c ≠ 0) (k : Nat) :
    (SendMsgState P L M cfg clock st0 k).pan.length = 20 ∧
    (SendMsgState P L M cfg clock st0 k).pan.take 15 = A := by
  induction k with
  | zero => exact ⟨hl, hA⟩
  | succ k ih =>
    have hn := SendMsgState_n P L M cfg clock st0 h0 k
    have hs := pan_step (SendMsgState P L M cfg clock st0 k).pan A (k % 10000)
      (by omega) ih.1 ih.2 hnz
    rw [← hn] at hs
    simp only [SendMsgState, SendMsgIter]
    exact ⟨hs.1, hs.2.1⟩

theorem SendMsgState_fieldPAN (st0 : SendState σ) (A : List Nat) (h0 : st0.n = 0)
    (hl : st0.pan.length = 20) (hA : st0.pan.take 15 = A) (hnz : ∀ c ∈ A, c ≠ 0)
    (hm : M.FL_PAN + 19 ≤ st0.msg.length) (k : Nat) :
    fieldPAN M (SendMsgState P L M cfg clock st0 (k + 1)).msg
      = A ++ decFixed 4 (k % 10000) := by
  have hn := SendMsgState_n P L M cfg clock st0 h0 k
  have hp := SendMsgState_pan P L M cfg clock st0 A h0 hl hA hnz k
  have hs := pan_step (SendMsgState P L M cfg clock st0 k).pan A (k % 10000)
    (by omega) hp.1 hp.2 hnz
  rw [← hn] at hs
  have hml := SendMsgState_msg_length P L M cfg clock st0 k
  have hAl : A.length = 15 := by rw [← hA, List.length_take]; omega
  have hbl : (strncpyBytes (sprintfAt (SendMsgState P L M cfg clock st0 k).pan 15
      (fmtD 4 (SendMsgState P L M cfg clock st0 k).n)) 19).length = 19 := by
    rw [hs.2.2]
    simp [hAl, decFixed_length]
  have hr := poke_read (stampMsg M (SendMsgState P L M cfg clock st0 k).msg (clock k).2)
    M.FL_PAN (strncpyBytes (sprintfAt (SendMsgState P L M cfg clock st0 k).pan 15
      (fmtD 4 (SendMsgState P L M cfg clock st0 k).n)) 19)
    (by rw [hbl, stampMsg_length, hml]; exact hm)
  rw [hbl] at hr
  rw [← hs.2.2]
  simp only [SendMsgState, SendMsgIter, fieldPAN, strncpy]
  exact hr

/-- C4, as stated, fails for a template with a NUL byte among bytes 2..14 of its
identification field: for worker number 1 and the field `45391`, NUL, `1111111111111`,
the field written at sequence 0 is `01391` followed by 14 NUL bytes; it does
not end in 0000 and is not the composition the claim gives. -/
theorem identification_field_nul_template :
    fieldPAN ⟨19, 27, 33, 36, 0⟩
        (SendMsgState stdPrng ⟨64, 12, 15, 4, 19, 35, 36, 41, 49⟩ ⟨19, 27, 33, 36, 0⟩
          ⟨1, 1, 200, 64⟩ (fun _ => (⟨0, [], [], [], []⟩, ⟨0, [], [], [], []⟩))
          (SendMsgInit ⟨19, 27, 33, 36, 0⟩ ⟨1, 1, 200, 64⟩ (List.replicate 20 85)
            ([52, 53, 51, 57, 49, 0] ++ List.replicate 74 49) 0 0) 1).msg
      = [48, 49, 51, 57, 49, 0, 0, 0, 0, 0, 0, 0, 0, 0, 0, 0, 0, 0, 0] ∧
    fieldPAN ⟨19, 27, 33, 36, 0⟩
        (SendMsgState stdPrng ⟨64, 12, 15, 4, 19, 35, 36, 41, 49⟩ ⟨19, 27, 33, 36, 0⟩
          ⟨1, 1, 200, 64⟩ (fun _ => (⟨0, [], [], [], []⟩, ⟨0, [], [], [], []⟩))
          (SendMsgInit ⟨19, 27, 33, 36, 0⟩ ⟨1, 1, 200, 64⟩ (List.replicate 20 85)
            ([52, 53, 51, 57, 49, 0] ++ List.replicate 74 49) 0 0) 1).msg
      ≠ decFixed 2 1
        ++ ((fieldPAN ⟨19, 27, 33, 36, 0⟩
              ([52, 53, 51, 57, 49, 0] ++ List.replicate 74 49)).drop 2).take 13
        ++ decFixed 4 0 := by
  decide

/-- C4, amended: for every worker number in 0..99, every template whose
identification field has no NUL byte among its bytes 2..14, and every iteration k,
the 19-byte identification field written into the message in iteration k is the
two-digit zero-padded worker number, then bytes 2..14 of the template's field,
then the sequence value k mod 10000 as four zero-padded digits; it ends in 0000
in iteration 0 and in 0001 in iteration 1. -/
theorem SendMsg_identification_field (pan0 msg0 : List Nat) (randx0 : Nat) (rng0 : σ)
    (k : Nat) (ha0 : 0 ≤ cfg.age) (ha1 : cfg.age ≤ 99) (hp : pan0.length = 20)
    (hlen : M.FL_PAN + 19 ≤ msg0.length)
    (hnz : ∀ c ∈ ((fieldPAN M msg0).drop 2).take 13, c ≠ 0) :
    fieldPAN M (SendMsgState P L M cfg clock (SendMsgInit M cfg pan0 msg0 randx0 rng0)
        (k + 1)).msg
      = decFixed 2 cfg.age.toNat ++ ((fieldPAN M msg0).drop 2).take 13
        ++ decFixed 4 (k % 10000) := by
  have he : ((fieldPAN M msg0).drop 2).take 13 = (msg0.drop (M.FL_PAN + 2)).take 13 := by
    unfold fieldPAN
    rw [List.drop_take, List.take_take, List.drop_drop]
    rfl
  rw [he] at hnz ⊢
  have hi := initPan_spec M cfg.age pan0 msg0 ha0 ha1 hp (by omega) hnz
  have hnzA : ∀ c ∈ decFixed 2 cfg.age.toNat ++ (msg0.drop (M.FL_PAN + 2)).take 13,
      c ≠ 0 := by
    intro c hc
    rcases List.mem_append.mp hc with h1 | h1
    · exact decFixed_ne_zero _ _ c h1
    · exact hnz c h1
  exact SendMsgState_fieldPAN P L M cfg clock (SendMsgInit M cfg pan0 msg0 randx0 rng0)
    _ rfl hi.1 hi.2 hnzA hlen k

/-- The identification field of iteration 1 for worker number 1 and a template of bytes `4`. -/
theorem SendMsg_identification_field_witness :
    fieldPAN ⟨19, 27, 33, 36, 0⟩
        (SendMsgState stdPrng ⟨64, 12, 15, 4, 19, 35, 36, 41, 49⟩ ⟨19, 27, 33, 36, 0⟩
          ⟨1, 1, 200, 64⟩ (fun _ => (⟨0, [], [], [], []⟩, ⟨0, [], [], [], []⟩))
          (SendMsgInit ⟨19, 27, 33, 36, 0⟩ ⟨1, 1, 200, 64⟩ (List.replicate 20 85)
            (List.replicate 80 52) 0 0) (1 + 1)).msg
      = decFixed 2 (1 : Int).toNat
        ++ ((fieldPAN ⟨19, 27, 33, 36, 0⟩ (List.replicate 80 52)).drop 2).take 13
        ++ decFixed 4 (1 % 10000) :=
  SendMsg_identification_field stdPrng ⟨64, 12, 15, 4, 19, 35, 36, 41, 49⟩
    ⟨19, 27, 33, 36, 0⟩ ⟨1, 1, 200, 64⟩ (fun _ => (⟨0, [], [], [], []⟩, ⟨0, [], [], [], []⟩))
    (List.replicate 20 85) (List.replicate 80 52) 0 0 1 (by decide) (by decide) (by simp)
    (by simp) (by decide)

end Sender

/-! ### The liveness check -/

theorem toShort_of_range (x : Int) (h1 : -32768 ≤ x) (h2 : x ≤ 32767) : toShort x = x := by
  unfold toShort
  omega

theorem AliveLoop_exit (capa : Nat) (ps : List PollOutcome) (revents : Nat) (tam : Int)
    (inb : List Delivery) (h : revents ≠ 0) :
    AliveLoop capa ps revents tam inb = AliveOut.returned ⟨tam, ps, inb⟩ := by
  cases ps <;> simp [AliveLoop, h]

theorem Alive_poll_failure (capa : Nat) (p : PollOutcome) (ps : List PollOutcome)
    (inb : List Delivery) (h1 : -32768 ≤ p.err) (h2 : p.err < 0) :
    Alive capa (p :: ps) inb = AliveOut.returned ⟨p.err, ps, inb⟩ := by
  have ht := toShort_of_range p.err h1 (by omega)
  simp [Alive, AliveLoop, ht, h2]

theorem Alive_no_pollin (capa : Nat) (p : PollOutcome) (ps : List PollOutcome)
    (inb : List Delivery) (h1 : 0 ≤ p.err) (h2 : p.err ≤ 32767)
    (h3 : p.revents &&& POLLIN = 0) :
    Alive capa (p :: ps) inb = AliveOut.returned ⟨-1, ps, inb⟩ := by
  have ht := toShort_of_range p.err (by omega) h2
  have hn : ¬ p.err < 0 := by omega
  simp only [Alive, AliveLoop, ht, hn, h3, ne_eq, not_true_eq_false, if_false]
  exact AliveLoop_exit capa ps 65 (-1) inb (by decide)

theorem Alive_pollin (capa : Nat) (p : PollOutcome) (ps : List PollOutcome)
    (inb : List Delivery) (io : IoRes) (h1 : 0 ≤ p.err) (h2 : p.err ≤ 32767)
    (h3 : p.revents &&& POLLIN ≠ 0)
    (hio : recv inb capa (MSG_PEEK ||| MSG_DONTWAIT) = some io) :
    Alive capa (p :: ps) inb
      = if 1024 < io.bytes.length then AliveOut.overrun
        else AliveOut.returned ⟨toShort io.ret, ps, io.rest⟩ := by
  have ht := toShort_of_range p.err (by omega) h2
  have hn : ¬ p.err < 0 := by omega
  have hr : p.revents ≠ 0 := by
    intro h0
    rw [h0] at h3
    simp at h3
  simp only [Alive, AliveLoop, ht, hn, h3, ne_eq, not_true_eq_false, not_false_eq_true,
    if_false, if_true, hio]
  rw [AliveLoop_exit capa ps p.revents _ _ hr]

theorem peek_data (capa : Nat) (bs : List Nat) (rest : List Delivery) :
    recv (Delivery.data bs :: rest) capa (MSG_PEEK ||| MSG_DONTWAIT)
      = some ⟨((min capa bs.length : Nat) : Int), bs.take capa, Delivery.data bs :: rest⟩ := by
  have hpk : (MSG_PEEK ||| MSG_DONTWAIT) &&& MSG_PEEK ≠ 0 := by decide
  simp only [recv, hpk, ne_eq, not_false_eq_true, if_true]

theorem Alive_pollin_data (capa : Nat) (p : PollOutcome) (ps : List PollOutcome)
    (bs : List Nat) (rest : List Delivery) (h1 : 0 ≤ p.err) (h2 : p.err ≤ 32767)
    (h3 : p.revents &&& POLLIN ≠ 0) (hc : min capa bs.length ≤ 1024) :
    Alive capa (p :: ps) (Delivery.data bs :: rest)
      = AliveOut.returned ⟨(min capa bs.length : Nat), ps, Delivery.data bs :: rest⟩ := by
  rw [Alive_pollin capa p ps _ _ h1 h2 h3 (peek_data capa bs rest)]
  have hl : ¬ 1024 < (bs.take capa).length := by
    rw [List.length_take]
    omega
  simp only [hl, if_false]
  rw [toShort_of_range _ (by omega) (by omega)]

theorem Alive_pollin_overrun (capa : Nat) (p : PollOutcome) (ps : List PollOutcome)
    (bs : List Nat) (rest : List Delivery) (h1 : 0 ≤ p.err) (h2 : p.err ≤ 32767)
    (h3 : p.revents &&& POLLIN ≠ 0) (hc : 1024 < min capa bs.length) :
    Alive capa (p :: ps) (Delivery.data bs :: rest) = AliveOut.overrun := by
  rw [Alive_pollin capa p ps _ _ h1 h2 h3 (peek_data capa bs rest)]
  have hl : 1024 < (bs.take capa).length := by
    rw [List.length_take]
    exact hc
  simp only [hl, if_true]

theorem Alive_pollin_closed (capa : Nat) (p : PollOutcome) (ps : List PollOutcome)
    (rest : List Delivery) (h1 : 0 ≤ p.err) (h2 : p.err ≤ 32767)
    (h3 : p.revents &&& POLLIN ≠ 0) :
    Alive capa (p :: ps) (Delivery.closed :: rest)
      = AliveOut.returned ⟨0, ps, Delivery.closed :: rest⟩ := by
  rw [Alive_pollin capa p ps (Delivery.closed :: rest) ⟨0, [], Delivery.closed :: rest⟩ h1 h2
    h3 rfl]
  rfl

theorem Alive_pollin_fail (capa : Nat) (p : PollOutcome) (ps : List PollOutcome)
    (rest : List Delivery) (h1 : 0 ≤ p.err) (h2 : p.err ≤ 32767)
    (h3 : p.revents &&& POLLIN ≠ 0) :
    Alive capa (p :: ps) (Delivery.fail :: rest) = AliveOut.returned ⟨-1, ps, rest⟩ := by
  rw [Alive_pollin capa p ps (Delivery.fail :: rest) ⟨-1, [], rest⟩ h1 h2 h3 rfl]
  rfl

theorem Alive_pollin_nothing (capa : Nat) (p : PollOutcome) (ps : List PollOutcome)
    (h1 : 0 ≤ p.err) (h2 : p.err ≤ 32767) (h3 : p.revents &&& POLLIN ≠ 0) :
    Alive capa (p :: ps) [] = AliveOut.returned ⟨-1, ps, []⟩ := by
  have hd : (MSG_PEEK ||| MSG_DONTWAIT) &&& MSG_DONTWAIT ≠ 0 := by decide
  rw [Alive_pollin capa p ps [] ⟨-1, [], []⟩ h1 h2 h3 (by simp only [recv, hd, ne_eq,
    not_false_eq_true, if_true])]
  rfl

theorem Alive_nothing_pending (capa : Nat) (p : PollOutcome) (ps : List PollOutcome)
    (inb : List Delivery) (a : AliveRes) (he1 : -32768 ≤ p.err) (he2 : p.err ≤ 32767)
    (hnone : ∀ bs rest, inb = Delivery.data bs :: rest → bs = [])
    (ha : Alive capa (p :: ps) inb = AliveOut.returned a) : a.ret ≤ 0 := by
  by_cases hneg : toShort p.err < 0
  · have : Alive capa (p :: ps) inb = AliveOut.returned ⟨toShort p.err, ps, inb⟩ := by
      simp [Alive, AliveLoop, hneg]
    rw [this] at ha
    injection ha with ha
    rw [← ha]
    exact le_of_lt hneg
  · have h0 : 0 ≤ p.err := by
      unfold toShort at hneg
      omega
    by_cases hin : p.revents &&& POLLIN = 0
    · rw [Alive_no_pollin capa p ps inb h0 he2 hin] at ha
      injection ha with ha
      rw [← ha]
      simp
    · cases inb with
      | nil =>
        rw [Alive_pollin_nothing capa p ps h0 he2 hin] at ha
        injection ha with ha
        rw [← ha]
        simp
      | cons d rest =>
        cases d with
        | data bs =>
          have hb := hnone bs rest rfl
          subst hb
          rw [Alive_pollin_data capa p ps [] rest h0 he2 hin (by simp)] at ha
          injection ha with ha
          rw [← ha]
          simp
        | fail =>
          rw [Alive_pollin_fail capa p ps rest h0 he2 hin] at ha
          injection ha with ha
          rw [← ha]
          simp
        | closed =>
          rw [Alive_pollin_closed capa p ps rest h0 he2 hin] at ha
          injection ha with ha
          rw [← ha]

theorem RecMsgFrame_first_event (capa : Nat) (yes : Bool) (cover : List Nat)
    (inb : List Delivery) (fuel : Nat) (io : IoRes) (h : read inb capa = some io) :
    ∃ evs, (RecMsgFrame capa yes cover inb fuel).events = RecEv.read capa io.ret :: evs := by
  unfold RecMsgFrame
  simp only [h]
  split_ifs <;> exact ⟨_, rfl⟩

/-- C8, as stated, fails three times. A connection whose peer has closed with nothing
pending (POLLIN and POLLRDHUP reported, the peek returns 0) makes Alive return 0,
not a negative value; a peer that has closed with 3 bytes still pending makes
Alive return 3; and with 16 bytes pending and capa = 12 Alive returns 12, not
16. -/
theorem Alive_not_as_classified :
    Alive 12 [⟨1, POLLIN ||| POLLRDHUP⟩] [Delivery.closed]
      = AliveOut.returned ⟨0, [], [Delivery.closed]⟩ ∧
    Alive 12 [⟨1, POLLIN ||| POLLRDHUP⟩] [Delivery.data [1, 2, 3], Delivery.closed]
      = AliveOut.returned ⟨3, [], [Delivery.data [1, 2, 3], Delivery.closed]⟩ ∧
    Alive 12 [⟨1, POLLIN⟩] [Delivery.data (List.replicate 16 7)]
      = AliveOut.returned ⟨12, [], [Delivery.data (List.replicate 16 7)]⟩ := by
  decide

/-- C8, amended: over every outcome of the readiness wait (a return value of poll that
fits a short, the event bits, and the non-consuming peek of up to capa bytes into
the 1024-byte buffer, capa at least 1). When POLLIN is reported Alive returns
the result of the peek, whatever other bits are reported with it: with k > 0
bytes pending and min(capa, k) at most 1024, the positive count min(capa, k),
no byte consumed (above 1024 bytes the peek overruns the buffer); with nothing
pending and the peer closed, 0; with a pending error or nothing at hand, -1.
When POLLIN is not reported (peer closed or error only) Alive returns -1. A
negative return of poll is returned as it is after that single call. Hence a
connection with no bytes pending, closed or in error, makes Alive return a
value that is not positive, 0 or negative. RecMsg, when Alive returns a value
that is not positive, closes the connection and stops without any read, and
when Alive returns a positive value issues the header read of capa bytes next. -/
theorem Alive_classification (capa : Nat) (p : PollOutcome) (ps : List PollOutcome)
    (inb : List Delivery) (cover : List Nat) (yes : Bool) (fuel : Nat)
    (hc1 : 0 < capa) (he1 : -32768 ≤ p.err) (he2 : p.err ≤ 32767) :
    (∀ bs rest, inb = Delivery.data bs :: rest → 0 < bs.length → 0 ≤ p.err →
        p.revents &&& POLLIN ≠ 0 → min capa bs.length ≤ 1024 →
        Alive capa (p :: ps) inb
          = AliveOut.returned ⟨(min capa bs.length : Nat), ps, inb⟩ ∧
        0 < min capa bs.length) ∧
    (∀ bs rest, inb = Delivery.data bs :: rest → 0 ≤ p.err → p.revents &&& POLLIN ≠ 0 →
        1024 < min capa bs.length → Alive capa (p :: ps) inb = AliveOut.overrun) ∧
    (∀ rest, inb = Delivery.closed :: rest → 0 ≤ p.err → p.revents &&& POLLIN ≠ 0 →
        Alive capa (p :: ps) inb = AliveOut.returned ⟨0, ps, inb⟩) ∧
    (∀ rest, inb = Delivery.fail :: rest → 0 ≤ p.err → p.revents &&& POLLIN ≠ 0 →
        Alive capa (p :: ps) inb = AliveOut.returned ⟨-1, ps, rest⟩) ∧
    (inb = [] → 0 ≤ p.err → p.revents &&& POLLIN ≠ 0 →
        Alive capa (p :: ps) inb = AliveOut.returned ⟨-1, ps, inb⟩) ∧
    (0 ≤ p.err → p.revents &&& POLLIN = 0 →
        Alive capa (p :: ps) inb = AliveOut.returned ⟨-1, ps, inb⟩) ∧
    (p.err < 0 → Alive capa (p :: ps) inb = AliveOut.returned ⟨p.err, ps, inb⟩) ∧
    ((∀ bs rest, inb = Delivery.data bs :: rest → bs = []) →
        ∀ a, Alive capa (p :: ps) inb = AliveOut.returned a → a.ret ≤ 0) ∧
    (∀ a, Alive capa (p :: ps) inb = AliveOut.returned a → a.ret ≤ 0 →
        RecMsgLoop capa yes (fuel + 1) cover (p :: ps) inb
          = ⟨[RecEv.alive a.ret, RecEv.close], Status.exited⟩) ∧
    (∀ a io, Alive capa (p :: ps) inb = AliveOut.returned a → 0 < a.ret →
        read a.inb capa = some io →
        ∃ evs, (RecMsgLoop capa yes (fuel + 1) cover (p :: ps) inb).events
          = RecEv.alive a.ret :: RecEv.read capa io.ret :: evs) := by
  refine ⟨?_, ?_, ?_, ?_, ?_, ?_, ?_, ?_, ?_, ?_⟩
  · intro bs rest hinb hk h0 hin hcap
    subst hinb
    exact ⟨Alive_pollin_data capa p ps bs rest h0 he2 hin hcap, by omega⟩
  · intro bs rest hinb h0 hin hcap
    subst hinb
    exact Alive_pollin_overrun capa p ps bs rest h0 he2 hin hcap
  · intro rest hinb h0 hin
    subst hinb
    exact Alive_pollin_closed capa p ps rest h0 he2 hin
  · intro rest hinb h0 hin
    subst hinb
    exact Alive_pollin_fail capa p ps rest h0 he2 hin
  · intro hinb h0 hin
    subst hinb
    exact Alive_pollin_nothing capa p ps h0 he2 hin
  · intro h0 hin
    exact Alive_no_pollin capa p ps inb h0 he2 hin
  · intro hneg
    exact Alive_poll_failure capa p ps inb he1 hneg
  · intro hnone a ha
    exact Alive_nothing_pending capa p ps inb a he1 he2 hnone ha
  · intro a ha hret
    have hn : ¬ a.ret > 0 := by omega
    simp only [RecMsgLoop, ha, hn, if_false]
  · intro a io ha hret hio
    obtain ⟨evs, hev⟩ := RecMsgFrame_first_event capa yes cover a.inb fuel io hio
    have hp : a.ret > 0 := hret
    simp only [RecMsgLoop, ha, hp, if_true]
    split_ifs
    · exact ⟨evs ++ (RecMsgLoop capa yes fuel (RecMsgFrame capa yes cover a.inb fuel).cover
        a.polls (RecMsgFrame capa yes cover a.inb fuel).inb).events, by simp [hev]⟩
    · exact ⟨evs, by simp [hev]⟩

/-- Each part at a concrete outcome with capa = 12: three bytes pending and POLLIN
reported; 2000 bytes pending with capa = 2000; the peer closed with nothing
pending; a pending error; nothing at hand; only POLLRDHUP reported; poll
failing; no bytes pending; RecMsg after a result that is not positive; RecMsg
after a positive result. -/
theorem Alive_classification_witness :
    (Alive 12 [⟨1, POLLIN⟩] [Delivery.data [1, 2, 3]]
        = AliveOut.returned ⟨(min 12 [1, 2, 3].length : Nat), [], [Delivery.data [1, 2, 3]]⟩ ∧
      0 < min 12 [1, 2, 3].length) ∧
    Alive 2000 [⟨1, POLLIN⟩] [Delivery.data (List.replicate 2000 7)] = AliveOut.overrun ∧
    Alive 12 [⟨1, POLLIN ||| POLLRDHUP⟩] [Delivery.closed]
      = AliveOut.returned ⟨0, [], [Delivery.closed]⟩ ∧
    Alive 12 [⟨1, POLLIN ||| POLLERR⟩] [Delivery.fail] = AliveOut.returned ⟨-1, [], []⟩ ∧
    Alive 12 [⟨1, POLLIN⟩] [] = AliveOut.returned ⟨-1, [], []⟩ ∧
    Alive 12 [⟨1, POLLRDHUP⟩] [Delivery.data [1, 2, 3]]
      = AliveOut.returned ⟨-1, [], [Delivery.data [1, 2, 3]]⟩ ∧
    Alive 12 [⟨-1, 0⟩] [Delivery.data [1, 2, 3]]
      = AliveOut.returned ⟨-1, [], [Delivery.data [1, 2, 3]]⟩ ∧
    (⟨0, [], [Delivery.closed]⟩ : AliveRes).ret ≤ 0 ∧
    RecMsgLoop 12 true (0 + 1) [] [⟨1, POLLIN ||| POLLRDHUP⟩] [Delivery.closed]
      = ⟨[RecEv.alive 0, RecEv.close], Status.exited⟩ ∧
    (∃ evs, (RecMsgLoop 12 true (0 + 1) [] [⟨1, POLLIN⟩] [Delivery.data [1, 2, 3]]).events
      = RecEv.alive 3 :: RecEv.read 12 3 :: evs) :=
  ⟨(Alive_classification 12 ⟨1, POLLIN⟩ [] [Delivery.data [1, 2, 3]] [] true 0 (by decide)
      (by decide) (by decide)).1 [1, 2, 3] [] rfl (by decide) (by decide) (by decide)
      (by decide),
    (Alive_classification 2000 ⟨1, POLLIN⟩ [] [Delivery.data (List.replicate 2000 7)] [] true
      0 (by decide) (by decide) (by decide)).2.1 (List.replicate 2000 7) [] rfl (by decide)
      (by decide) (by rw [List.length_replicate]; decide),
    (Alive_classification 12 ⟨1, POLLIN ||| POLLRDHUP⟩ [] [Delivery.closed] [] true 0
      (by decide) (by decide) (by decide)).2.2.1 [] rfl (by decide) (by decide),
    (Alive_classification 12 ⟨1, POLLIN ||| POLLERR⟩ [] [Delivery.fail] [] true 0
      (by decide) (by decide) (by decide)).2.2.2.1 [] rfl (by decide) (by decide),
    (Alive_classification 12 ⟨1, POLLIN⟩ [] [] [] true 0
      (by decide) (by decide) (by decide)).2.2.2.2.1 rfl (by decide) (by decide),
    (Alive_classification 12 ⟨1, POLLRDHUP⟩ [] [Delivery.data [1, 2, 3]] [] true 0 (by decide)
      (by decide) (by decide)).2.2.2.2.2.1 (by decide) (by decide),
    (Alive_classification 12 ⟨-1, 0⟩ [] [Delivery.data [1, 2, 3]] [] true 0 (by decide)
      (by decide) (by decide)).2.2.2.2.2.2.1 (by decide),
    (Alive_classification 12 ⟨1, POLLIN ||| POLLRDHUP⟩ [] [Delivery.closed] [] true 0
      (by decide) (by decide) (by decide)).2.2.2.2.2.2.2.1
      (by intro bs rest h; cases h) ⟨0, [], [Delivery.closed]⟩ (by decide),
    (Alive_classification 12 ⟨1, POLLIN ||| POLLRDHUP⟩ [] [Delivery.closed] [] true 0
      (by decide) (by decide) (by decide)).2.2.2.2.2.2.2.2.1 ⟨0, [], [Delivery.closed]⟩
      (by decide) (by decide),
    (Alive_classification 12 ⟨1, POLLIN⟩ [] [Delivery.data [1, 2, 3]] [] true 0 (by decide)
      (by decide) (by decide)).2.2.2.2.2.2.2.2.2 ⟨3, [], [Delivery.data [1, 2, 3]]⟩
      ⟨3, [1, 2, 3], []⟩ (by decide) (by decide) (by decide)⟩

/-! ### The reassembly loop -/

theorem read_data (c : List Nat) (rest : List Delivery) (n : Nat) :
    read (Delivery.data c :: rest) n
      = some ⟨((min n c.length : Nat) : Int), c.take n,
          if c.drop n = [] then rest else Delivery.data (c.drop n) :: rest⟩ := by
  have h0 : (0 : Nat) &&& MSG_PEEK = 0 := by decide
  unfold read recv
  simp only [h0, ne_eq, not_true_eq_false, if_false]
  split_ifs <;> rfl

theorem read_data_whole (c : List Nat) (rest : List Delivery) (n : Nat) (h : c.length ≤ n) :
    read (Delivery.data c :: rest) n = some ⟨(c.length : Int), c, rest⟩ := by
  rw [read_data, List.drop_of_length_le h, List.take_of_length_le h, Nat.min_eq_right h]
  simp

theorem remLoop_step_data (tot : Int) (fuel : Nat) (st : LoopSt) (c : List Nat)
    (rest : List Delivery) (h1 : st.lido < tot) (h2 : st.inb = Delivery.data c :: rest)
    (h3 : c.length ≤ st.Len.toNat) (h4 : c.length ≤ 32767) :
    remLoop tot (fuel + 1) st
      = (RecEv.read st.Len (c.length : Int) ::
          (remLoop tot fuel
            { lido := toShort (st.lido + (c.length : Int)), i := st.i + (c.length : Int),
              Len := tot - toShort (st.lido + (c.length : Int)),
              buf := readInto st.buf st.i c, inb := rest }).1,
         (remLoop tot fuel
            { lido := toShort (st.lido + (c.length : Int)), i := st.i + (c.length : Int),
              Len := tot - toShort (st.lido + (c.length : Int)),
              buf := readInto st.buf st.i c, inb := rest }).2) := by
  have ht : toShort (c.length : Int) = (c.length : Int) :=
    toShort_of_range _ (by omega) (by omega)
  have hn : ¬ ((c.length : Int) < 0) := by omega
  rw [remLoop]
  simp only [h1, if_true, h2, read_data_whole c rest _ h3, ht, hn, if_false, List.nil_append]
  rfl

theorem remLoop_chunks (F : List Nat) (hF : F.length ≤ 2048) (cs : List (List Nat)) :
    ∀ (l : Nat) (buf : List Nat) (fuel : Nat),
      (∀ c ∈ cs, c ≠ []) → l ≤ F.length → buf.length = 2048 → buf.take l = F.take l →
      F.drop l = cs.flatten → cs.length ≤ fuel →
      ∃ evs buf1,
        remLoop (F.length : Int) fuel
            { lido := (l : Int), i := (l : Int), Len := (F.length : Int) - (l : Int),
              buf := buf, inb := cs.map Delivery.data }
          = (evs, { lido := (F.length : Int), i := (F.length : Int), Len := 0, buf := buf1,
                    inb := [] }, Status.ok) ∧
        buf1.take F.length = F ∧ buf1.length = 2048 := by
  induction cs with
  | nil =>
    intro l buf fuel _ hl hb ht hd _
    have hle : F.length ≤ l := by
      have := congrArg List.length hd
      simp at this
      omega
    have hl2 : l = F.length := by omega
    subst hl2
    refine ⟨[], buf, ?_, ?_, hb⟩
    · cases fuel <;> simp [remLoop]
    · rw [ht, List.take_of_length_le (le_refl _)]
  | cons c cs ih =>
    intro l buf fuel hne hl hb ht hd hfuel
    have hc : c ≠ [] := hne c (by simp)
    have hcl : 0 < c.length := List.length_pos.mpr hc
    have hlen : F.length - l = c.length + cs.flatten.length := by
      have := congrArg List.length hd
      simpa using this
    obtain ⟨f, rfl⟩ : ∃ f, fuel = f + 1 := ⟨fuel - 1, by simp at hfuel; omega⟩
    have hstep := remLoop_step_data (F.length : Int) f
      { lido := (l : Int), i := (l : Int), Len := (F.length : Int) - (l : Int),
        buf := buf, inb := (c :: cs).map Delivery.data } c (cs.map Delivery.data)
      (by simp only; omega) (by simp) (by simp only; omega) (by omega)
    have hsh : toShort ((l : Int) + (c.length : Int)) = ((l + c.length : Nat) : Int) := by
      rw [toShort_of_range _ (by omega) (by omega)]
      push_cast
      rfl
    have hri : readInto buf (l : Int) c = poke buf l c := by
      unfold readInto
      rw [if_pos (by omega)]
      rfl
    simp only [hsh, hri] at hstep
    have hcast : (l : Int) + (c.length : Int) = ((l + c.length : Nat) : Int) := by push_cast; rfl
    rw [hcast] at hstep
    have htake : (poke buf l c).take (l + c.length) = F.take (l + c.length) := by
      rw [poke_take_add buf l c c.length (by omega) (le_refl _), ht,
        List.take_of_length_le (le_refl _), List.take_add, hd, List.flatten_cons,
        List.take_append_of_le_length (le_refl _), List.take_of_length_le (le_refl _)]
    have hdrop : F.drop (l + c.length) = cs.flatten := by
      have : F.drop (l + c.length) = (F.drop l).drop c.length := by
        rw [List.drop_drop]
      rw [this, hd, List.flatten_cons,
        List.drop_append_of_le_length (le_refl _), List.drop_of_length_le (le_refl _)]
      rfl
    obtain ⟨evs, buf1, hrun, hb1, hb2⟩ := ih (l + c.length) (poke buf l c) f
      (fun x hx => hne x (by simp [hx])) (by omega) (by rw [poke_length, hb]) htake hdrop
      (by simp at hfuel; omega)
    rw [hrun] at hstep
    exact ⟨_, buf1, hstep, hb1, hb2⟩

theorem RecMsgFrame_chunks (capa ext tmsg : Nat) (F c0 : List Nat) (cs : List (List Nat))
    (cover : List Nat) (yes : Bool) (fuel : Nat)
    (hcapa : 12 ≤ capa) (hcov : cover.length = capa) (hT : F.length = capa + ext + tmsg)
    (hsz : F.length ≤ 2048) (hfields : F.take 12 = decFixed 8 tmsg ++ decFixed 4 ext)
    (hsplit : (c0 :: cs).flatten = F) (hne : ∀ c ∈ c0 :: cs, c ≠ [])
    (hfirst : 12 ≤ c0.length) (hfuel : cs.length + 1 ≤ fuel) :
    ∃ buf, (RecMsgFrame capa yes cover ((c0 :: cs).map Delivery.data) fuel).frame
        = some ((F.length : Int), buf) ∧
      buf.take F.length = F ∧
      (RecMsgFrame capa yes cover ((c0 :: cs).map Delivery.data) fuel).status = Status.ok ∧
      (RecMsgFrame capa yes cover ((c0 :: cs).map Delivery.data) fuel).inb = [] := by
  have hF : F = c0 ++ cs.flatten := by rw [← hsplit, List.flatten_cons]
  have hc0F : c0.length ≤ F.length := by rw [hF]; simp
  -- the first read
  obtain ⟨cs1, hcs1, hne1, hlen1, hflat1⟩ : ∃ cs1 : List (List Nat),
      (if c0.drop capa = [] then cs.map Delivery.data
        else Delivery.data (c0.drop capa) :: cs.map Delivery.data) = cs1.map Delivery.data ∧
      (∀ c ∈ cs1, c ≠ []) ∧ cs1.length ≤ cs.length + 1 ∧
      cs1.flatten = c0.drop capa ++ cs.flatten := by
    by_cases hd : c0.drop capa = []
    · exact ⟨cs, by simp [hd], fun c hc => hne c (by simp [hc]), by omega, by simp [hd]⟩
    · refine ⟨c0.drop capa :: cs, by simp [hd], ?_, by simp, by simp⟩
      intro c hc
      rcases List.mem_cons.mp hc with h | h
      · rw [h]; exact hd
      · exact hne c (by simp [h])
  have hread := read_data c0 (cs.map Delivery.data) capa
  rw [hcs1] at hread
  have hmin1 : 12 ≤ min capa c0.length := by omega
  have hmin2 : min capa c0.length ≤ 2048 := by omega
  have htam : toShort ((min capa c0.length : Nat) : Int) = ((min capa c0.length : Nat) : Int) :=
    toShort_of_range _ (by omega) (by omega)
  have htl : (c0.take capa).length = min capa c0.length := List.length_take _ _
  have hFtake : F.take (min capa c0.length) = c0.take capa := by
    rw [hF, List.take_append_of_le_length (by omega), List.take_eq_take]
    omega
  have hFdrop : F.drop (min capa c0.length) = cs1.flatten := by
    have hdd : c0.drop (min capa c0.length) = c0.drop capa := by
      by_cases h : capa ≤ c0.length
      · rw [Nat.min_eq_left h]
      · rw [Nat.min_eq_right (by omega), List.drop_of_length_le (le_refl _),
          List.drop_of_length_le (by omega)]
    rw [hflat1, hF, List.drop_append_of_le_length (by omega), hdd]
  -- the receive buffer after the first read
  generalize hbuf : readInto (List.replicate 2048 0) 0 (c0.take capa) = buf1
  have hb1 : buf1 = poke (List.replicate 2048 0) 0 (c0.take capa) := by
    rw [← hbuf]
    unfold readInto
    rw [if_pos (le_refl _)]
    rfl
  have hbl : buf1.length = 2048 := by rw [hb1, poke_length, List.length_replicate]
  have hbt : buf1.take (min capa c0.length) = F.take (min capa c0.length) := by
    have := poke_take_add (List.replicate 2048 0) 0 (c0.take capa) (min capa c0.length)
      (by rw [List.length_replicate]; omega) (by omega)
    rw [Nat.zero_add, List.take_zero, List.nil_append,
      List.take_of_length_le (l := c0.take capa) (by omega)] at this
    rw [hb1, this, hFtake]
  have hb12 : buf1.take 12 = decFixed 8 tmsg ++ decFixed 4 ext := by
    have e : buf1.take 12 = (buf1.take (min capa c0.length)).take 12 := by
      rw [List.take_take, Nat.min_eq_left hmin1]
    rw [e, hbt, List.take_take, Nat.min_eq_left hmin1, hfields]
  -- the header
  have hc12 := strncpy_take12 cover buf1 (min capa c0.length) ext tmsg (by omega) hmin1 hb12
  have hp := parse_of_take12 _ ext tmsg (by omega) (by omega) hc12
  have hhd : (RecMsgHeader capa (strncpy cover 0 buf1 (min capa c0.length))).2.2
      = (F.length : Int) := by
    simp only [RecMsgHeader, hp.1, hp.2]
    rw [toShort_of_range _ (by omega) (by omega), hT]
    push_cast
    ring
  -- the remainder loop
  obtain ⟨evs, buf2, hrun, hb2t, _⟩ := remLoop_chunks F hsz cs1 (min capa c0.length) buf1 fuel
    hne1 (by omega) hbl hbt hFdrop (by omega)
  have hlido : (if (F.length : Int) - ((min capa c0.length : Nat) : Int) = 0
      then (F.length : Int) else ((min capa c0.length : Nat) : Int))
      = ((min capa c0.length : Nat) : Int) := by
    split_ifs with h
    · omega
    · rfl
  have hn12 : ¬ (((min capa c0.length : Nat) : Int) < 12) := by omega
  refine ⟨buf2, ?_, hb2t, ?_, ?_⟩ <;>
    simp only [RecMsgFrame, List.map_cons, hread, htam, hn12, if_false, Int.toNat_ofNat, hbuf,
      hhd, hlido, hrun, if_true]

/-- C1, as stated, fails when the first chunk has fewer than 12 bytes. The 16-byte frame
`00000004`, `0000`, `ABCD` (capa = 12, ext = 0, tmsg = 4) delivered as 5 + 11 bytes
makes RecMsg log two short headers and complete no frame, blocked on the
liveness check; delivered in one piece it is reassembled with lido = 16. -/
theorem split_header_not_reassembled :
    [[48, 48, 48, 48, 48], [48, 48, 52, 48, 48, 48, 48, 65, 66, 67, 68]].flatten
      = decFixed 8 4 ++ decFixed 4 0 ++ [65, 66, 67, 68] ∧
    framesOf (RecMsgLoop 12 true 6 (List.replicate 12 0) [⟨1, POLLIN⟩, ⟨1, POLLIN⟩]
      [Delivery.data [48, 48, 48, 48, 48],
        Delivery.data [48, 48, 52, 48, 48, 48, 48, 65, 66, 67, 68]]).events = [] ∧
    (RecMsgLoop 12 true 6 (List.replicate 12 0) [⟨1, POLLIN⟩, ⟨1, POLLIN⟩]
      [Delivery.data [48, 48, 48, 48, 48],
        Delivery.data [48, 48, 52, 48, 48, 48, 48, 65, 66, 67, 68]]).status = Status.blocked ∧
    (RecMsgFrame 12 true (List.replicate 12 0)
      [Delivery.data [48, 48, 48, 48, 48],
        Delivery.data [48, 48, 52, 48, 48, 48, 48, 65, 66, 67, 68]] 6).frame = none ∧
    framesOf (RecMsgLoop 12 true 6 (List.replicate 12 0) [⟨1, POLLIN⟩]
      [Delivery.data (decFixed 8 4 ++ decFixed 4 0 ++ [65, 66, 67, 68])]).events
      = [(16, decFixed 8 4 ++ decFixed 4 0 ++ [65, 66, 67, 68])] := by
  decide

/-- C1, amended: for every frame F of length T = capa + ext + tmsg ≤ 2048 whose first 12
bytes are the 8-digit decimal of tmsg and the 4-digit decimal of ext, and every
split of F into non-empty chunks whose first chunk has at least 12 bytes, the
reassembly (one read of up to capa bytes, then reads of the remaining count
until lido = tot) comes to an end within one pass per chunk, with lido = T, the
first T bytes of buf equal to F and nothing left unread; F delivered in one
piece gives the same lido and the same first T bytes. -/
theorem RecMsg_reassembly (capa ext tmsg : Nat) (F : List Nat) (chunks : List (List Nat))
    (cover : List Nat) (yes : Bool) (fuel : Nat)
    (hcapa : 12 ≤ capa) (hcov : cover.length = capa) (hT : F.length = capa + ext + tmsg)
    (hsz : capa + ext + tmsg ≤ 2048)
    (hfields : F.take 12 = decFixed 8 tmsg ++ decFixed 4 ext)
    (hsplit : chunks.flatten = F) (hne : ∀ c ∈ chunks, c ≠ [])
    (hfirst : 12 ≤ (chunks.headD []).length) (hfuel : chunks.length ≤ fuel) :
    ∃ buf bufWhole,
      (RecMsgFrame capa yes cover (chunks.map Delivery.data) fuel).frame
        = some (((capa + ext + tmsg : Nat) : Int), buf) ∧
      buf.take (capa + ext + tmsg) = F ∧
      (RecMsgFrame capa yes cover (chunks.map Delivery.data) fuel).status = Status.ok ∧
      (RecMsgFrame capa yes cover (chunks.map Delivery.data) fuel).inb = [] ∧
      (RecMsgFrame capa yes cover [Delivery.data F] fuel).frame
        = some (((capa + ext + tmsg : Nat) : Int), bufWhole) ∧
      bufWhole.take (capa + ext + tmsg) = buf.take (capa + ext + tmsg) := by
  cases chunks with
  | nil => simp at hfirst
  | cons c0 cs =>
    simp only [List.headD_cons] at hfirst
    have hF12 : 12 ≤ F.length := by omega
    obtain ⟨buf, h1, h2, h3, h4⟩ := RecMsgFrame_chunks capa ext tmsg F c0 cs cover yes fuel
      hcapa hcov hT (by omega) hfields hsplit hne hfirst (by simpa using hfuel)
    obtain ⟨bufW, w1, w2, _, _⟩ := RecMsgFrame_chunks capa ext tmsg F F [] cover yes fuel
      hcapa hcov hT (by omega) hfields (by simp)
      (by
        intro c hc
        simp at hc
        subst hc
        intro h0
        rw [h0] at hF12
        simp at hF12)
      hF12 (by simp at hfuel ⊢; omega)
    rw [hT] at h1 h2 w1 w2
    exact ⟨buf, bufW, h1, h2, h3, h4, w1, by rw [w2, h2]⟩

/-- A 16-byte frame delivered as 13 + 2 + 1 bytes. -/
theorem RecMsg_reassembly_witness :
    ∃ buf bufWhole,
      (RecMsgFrame 12 true (List.replicate 12 0)
          ([[48, 48, 48, 48, 48, 48, 48, 52, 48, 48, 48, 48, 65], [66, 67], [68]].map
            Delivery.data) 3).frame
        = some (((12 + 0 + 4 : Nat) : Int), buf) ∧
      buf.take (12 + 0 + 4)
        = [48, 48, 48, 48, 48, 48, 48, 52, 48, 48, 48, 48, 65, 66, 67, 68] ∧
      (RecMsgFrame 12 true (List.replicate 12 0)
          ([[48, 48, 48, 48, 48, 48, 48, 52, 48, 48, 48, 48, 65], [66, 67], [68]].map
            Delivery.data) 3).status = Status.ok ∧
      (RecMsgFrame 12 true (List.replicate 12 0)
          ([[48, 48, 48, 48, 48, 48, 48, 52, 48, 48, 48, 48, 65], [66, 67], [68]].map
            Delivery.data) 3).inb = [] ∧
      (RecMsgFrame 12 true (List.replicate 12 0)
          [Delivery.data [48, 48, 48, 48, 48, 48, 48, 52, 48, 48, 48, 48, 65, 66, 67, 68]]
          3).frame
        = some (((12 + 0 + 4 : Nat) : Int), bufWhole) ∧
      bufWhole.take (12 + 0 + 4) = buf.take (12 + 0 + 4) :=
  RecMsg_reassembly 12 0 4 [48, 48, 48, 48, 48, 48, 48, 52, 48, 48, 48, 48, 65, 66, 67, 68]
    [[48, 48, 48, 48, 48, 48, 48, 52, 48, 48, 48, 48, 65], [66, 67], [68]]
    (List.replicate 12 0) true 3 (by decide) (by decide) (by decide) (by decide) (by decide)
    (by decide) (by decide) (by decide) (by decide)

/-! ### A read error in the remainder loop -/

theorem remLoop_step_fail (tot : Int) (fuel : Nat) (st : LoopSt) (rest : List Delivery)
    (h1 : st.lido < tot) (h2 : st.inb = Delivery.fail :: rest) :
    remLoop tot (fuel + 1) st
      = (RecEv.read st.Len (-1) :: RecEv.readError ::
          (remLoop tot fuel
            { lido := toShort (st.lido + -1), i := st.i + -1,
              Len := tot - toShort (st.lido + -1), buf := st.buf, inb := rest }).1,
         (remLoop tot fuel
            { lido := toShort (st.lido + -1), i := st.i + -1,
              Len := tot - toShort (st.lido + -1), buf := st.buf, inb := rest }).2) := by
  have ht : toShort (-1) = -1 := by decide
  have hp : poke st.buf st.i.toNat [] = st.buf := poke_nil _ _
  rw [remLoop]
  simp only [h1, if_true, h2, read, recv, ht, readInto, hp, ite_self]
  rfl

/-- C7, what the code does: a read that fails in the remainder loop is logged, then
counted as -1 byte, and the loop goes on. With capa = 12 and the frame `00000004`,
`0000`, `ABCD`, an error after the header is followed by two more reads (of 5 and
of 1 byte) for the same frame, which is then delivered with lido = 16 and
with the last header byte overwritten by `A` and one byte (`E`) taken from what follows the
frame. -/
theorem RecMsg_read_error_goes_on :
    (RecMsgFrame 12 true (List.replicate 12 0)
      [Delivery.data (decFixed 8 4 ++ decFixed 4 0), Delivery.fail,
        Delivery.data [65, 66, 67, 68], Delivery.data [69]] 6).events.take 5
      = [RecEv.read 12 12, RecEv.read 4 (-1), RecEv.readError, RecEv.read 5 4,
          RecEv.read 1 1] ∧
    framesOf (RecMsgFrame 12 true (List.replicate 12 0)
      [Delivery.data (decFixed 8 4 ++ decFixed 4 0), Delivery.fail,
        Delivery.data [65, 66, 67, 68], Delivery.data [69]] 6).events
      = [(16, [48, 48, 48, 48, 48, 48, 48, 52, 48, 48, 48, 65, 66, 67, 68, 69])] ∧
    (RecMsgFrame 12 true (List.replicate 12 0)
      [Delivery.data (decFixed 8 4 ++ decFixed 4 0), Delivery.fail,
        Delivery.data [65, 66, 67, 68], Delivery.data [69]] 6).status = Status.ok := by
  decide

end Spark
